import Mathlib

/-!
# Load-aware reordering of DNS answers (package `loadaware`)

A shallow embedding of `plugin/loadaware/handler.go`: the response interceptor
`LoadAwareResponseWriter.WriteMsg` and the sorter `LoadAware.getSortedHostsByLoad`
with its per-address lookup `LoadAware.getConnectionCountForIP`.

What the Go code leaves to its environment is collected in `Env`: the Redis
`HGet` call, `json.Unmarshal`, the order in which a `range` statement visits the
keys of a map (unspecified by the language), the permutation `sort.Slice`
produces (not guaranteed stable), and the wrapped `dns.ResponseWriter`.
-/

set_option linter.dupNamespace false

namespace loadaware

/-! ## Data model -/

/-- A Go `error` value that is not nil; `Nil` is the sentinel `redis.Nil`. -/
inductive Error where
  | Nil
  | other (msg : String)
deriving DecidableEq, Repr

/-- The record type `dns.A`: `Hdr` stands for the record header (name, class, TTL),
`A` for the textual form of the address, i.e. what `aRecord.A.String()` returns. -/
structure A where
  Hdr : String
  A : String
deriving DecidableEq, Repr

/-- A value of the interface `dns.RR` as found in an incoming answer: either a
`*dns.A` (non-nil) or a record of any other type. -/
inductive RR where
  | A (aRecord : A)
  | other (rr : String)
deriving DecidableEq, Repr

/-- The fields of `dns.Msg` the code touches: `Answer`; `MsgHdr` stands for the rest. -/
structure Msg where
  MsgHdr : String
  Answer : List RR
deriving DecidableEq, Repr

/-- A message as the sink receives it. An entry of `Answer` is `none` when it is the
nil `*dns.A` that reading a Go map at a missing key yields. -/
structure WMsg where
  MsgHdr : String
  Answer : List (Option RR)
deriving DecidableEq, Repr

/-- The incoming message seen as a written message (no entry is nil). -/
def Msg.toW (res : Msg) : WMsg :=
  { MsgHdr := res.MsgHdr, Answer := res.Answer.map some }

/-- The Go struct `ConnStore`, the JSON payload stored per address. -/
structure ConnStore where
  Address : String
  Count : Int
deriving DecidableEq, Repr

/-- The Go struct `LoadAware` (the plugin): `Next` is not used by the code modelled
here and `RedisClient` is represented by `Env.HGet`. -/
structure LoadAware where
  RedisKey : String
  LoadThreshold : Int
deriving DecidableEq, Repr

/-! ## Go maps with string keys -/

/-- A Go `map[string]V`, as an association list. The list order is an artefact of
the model; the code only observes a map through `get`, `len` and `range`, and `range`
goes through `Env.rangeOrder`. -/
abbrev GoMap (V : Type) := List (String × V)

/-- The keys of a map (in the model's internal order). -/
def GoMap.keys {V : Type} (m : GoMap V) : List String := m.map Prod.fst

/-- The Go statement `m[k] = v`: overwrite the entry of `k` or add one. -/
def GoMap.set {V : Type} : GoMap V → String → V → GoMap V
  | [], k, v => [(k, v)]
  | (k0, v0) :: m, k, v => if k0 = k then (k, v) :: m else (k0, v0) :: GoMap.set m k v

/-- The Go expression `v, ok := m[k]`, `none` when `ok` is false. -/
def GoMap.get {V : Type} : GoMap V → String → Option V
  | [], _ => none
  | (k0, v0) :: m, k => if k0 = k then some v0 else GoMap.get m k

/-- The Go expression `m[k]` on a `map[string]int`: the zero value `0` for a missing key. -/
def GoMap.index (m : GoMap Int) (k : String) : Int := (GoMap.get m k).getD 0

/-! ## Environment -/

/-- Everything the code obtains from outside itself.

* `HGet key field` is `lc.RedisClient.HGet(ctx, key, field).Result()`: the value and
  the error (`none` for a nil error, `some Error.Nil` for `redis.Nil`).
* `Unmarshal data` is `json.Unmarshal([]byte(data), &connStore)` on a zero `connStore`:
  the resulting struct and the error.
* `rangeOrder n ks` is the order in which the `n`-th `range` statement over a map of
  `getSortedHostsByLoad` visits the keys `ks` of that map.
* `sortSlice less xs` is the slice after `sort.Slice(xs, less)`, with `less` given on
  elements instead of on indices.
* `sinkWriteMsg` is the error returned by the embedded `dns.ResponseWriter.WriteMsg`. -/
structure Env where
  HGet : String → String → String × Option Error
  Unmarshal : String → ConnStore × Option Error
  rangeOrder : Nat → List String → List String
  sortSlice : (String → String → Bool) → List String → List String
  sinkWriteMsg : Option WMsg → Option Error

/-- A comparison is a strict weak ordering, which is what `sort.Slice` asks of `less`. -/
structure StrictWeak (less : String → String → Bool) : Prop where
  irrefl : ∀ a, less a a = false
  trans : ∀ a b c, less a b = true → less b c = true → less a c = true
  incomp : ∀ a b c, less a b = false → less b c = false → less a c = false

/-- What Go guarantees of the environment: a `range` over a map visits every key
exactly once, in some order; `sort.Slice` permutes the slice, and for a strict weak
ordering leaves no element before one that is less than it. -/
structure Env.Valid (env : Env) : Prop where
  range_perm : ∀ n ks, (env.rangeOrder n ks).Perm ks
  sort_perm : ∀ less xs, (env.sortSlice less xs).Perm xs
  sort_sorted : ∀ less xs, StrictWeak less →
    (env.sortSlice less xs).Pairwise (fun a b => less b a = false)

/-! ## The sorter -/

/-- The Go method `LoadAware.getConnectionCountForIP`: the count and the error. -/
def getConnectionCountForIP (env : Env) (lc : LoadAware) (ip : String) : Int × Option Error :=
  match env.HGet lc.RedisKey ip with
  | (_, some err) =>
    if err = Error.Nil then (0, none) else (0, some err)
  | (connData, none) =>
    match env.Unmarshal connData with
    | (_, some err) => (0, some err)
    | (connStore, none) => (connStore.Count, none)

/-- The first loop of `getSortedHostsByLoad`, over the keys in the order visited:
the map `ipConnectionCount` built so far, the error that stopped the loop, and the
log of the addresses looked up in the store. -/
def lookupLoop (env : Env) (lc : LoadAware) :
    List String → GoMap Int → List String → (GoMap Int × Option Error) × List String
  | [], ipConnectionCount, log => ((ipConnectionCount, none), log)
  | ip :: rest, ipConnectionCount, log =>
    match getConnectionCountForIP env lc ip with
    | (_, some err) => ((ipConnectionCount, some err), log ++ [ip])
    | (connCount, none) =>
      lookupLoop env lc rest
        (if connCount < lc.LoadThreshold then GoMap.set ipConnectionCount ip connCount
         else ipConnectionCount)
        (log ++ [ip])

/-- The Go method `LoadAware.getSortedHostsByLoad`: the returned pair (slice, error;
a nil slice is `[]`), and the log of the addresses looked up in the store. -/
def getSortedHostsByLoad (env : Env) (lc : LoadAware) (ipMap : GoMap A) :
    (List String × Option Error) × List String :=
  match lookupLoop env lc (env.rangeOrder 0 (GoMap.keys ipMap)) [] [] with
  | ((_, some err), log) => (([], some err), log)
  | ((ipConnectionCount, none), log) =>
    if ipConnectionCount.length = 0 then
      ((env.rangeOrder 1 (GoMap.keys ipMap), none), log)
    else
      ((env.sortSlice
          (fun a b => decide (GoMap.index ipConnectionCount a < GoMap.index ipConnectionCount b))
          (env.rangeOrder 2 (GoMap.keys ipConnectionCount)), none), log)

/-! ## The interceptor -/

/-- The partition loop of `WriteMsg`: `ipMap` and `otherRecords` after the answers. -/
def extract : List RR → GoMap A → List RR → GoMap A × List RR
  | [], ipMap, otherRecords => (ipMap, otherRecords)
  | RR.A aRecord :: rest, ipMap, otherRecords =>
    extract rest (GoMap.set ipMap aRecord.A aRecord) otherRecords
  | RR.other rr :: rest, ipMap, otherRecords =>
    extract rest ipMap (otherRecords ++ [RR.other rr])

/-- What one call of `WriteMsg` does: the messages written to the underlying sink
(in order; `none` is a nil message), the addresses looked up in the store, and the
returned error. -/
structure Outcome where
  writes : List (Option WMsg)
  lookups : List String
  ret : Option Error
deriving DecidableEq, Repr

/-- The Go method `LoadAwareResponseWriter.WriteMsg`; `res = none` is a nil message. -/
def WriteMsg (env : Env) (lc : LoadAware) (res : Option Msg) : Outcome :=
  match res with
  | none => { writes := [none], lookups := [], ret := env.sinkWriteMsg none }
  | some res =>
    match extract res.Answer [] [] with
    | (ipMap, otherRecords) =>
      match getSortedHostsByLoad env lc ipMap with
      | ((_, some _), log) =>
        { writes := [some res.toW], lookups := log, ret := env.sinkWriteMsg (some res.toW) }
      | ((sortedIPs, none), log) =>
        let newAnswers : List (Option RR) :=
          otherRecords.map some ++ sortedIPs.map (fun ip => (GoMap.get ipMap ip).map RR.A)
        let out : WMsg := { MsgHdr := res.MsgHdr, Answer := newAnswers }
        { writes := [some out], lookups := log, ret := env.sinkWriteMsg (some out) }

/-! ## Configuration (`setup.go`) -/

/-- The Go struct `lcFuncs`; a hook is `none` when the function value is nil, else
the function, given by the error it returns. -/
structure lcFuncs where
  redisAddr : String
  redisKey : String
  loadThreshold : Int
  onStartUpFunc : Option (Unit → Option Error)
  onShutdownFunc : Option (Unit → Option Error)

/-- What `parse` sees of a `caddy.Controller`: `lines` holds, for each call of
`c.Next()` that returns true, the arguments `c.RemainingArgs()` then returns;
`ArgErr` is the error `c.ArgErr()` builds. -/
structure Controller where
  lines : List (List String)
  ArgErr : Error

/-- The loop `for c.Next()` of `parse`, over the remaining occurrences, with the
current value of `funcs`; `Atoi` is `strconv.Atoi` (value and error). A nil pointer
result is `none`. -/
def parseLoop (Atoi : String → Int × Option Error) (c : Controller) :
    List (List String) → lcFuncs → Option lcFuncs × Option Error
  | [], funcs => (some funcs, none)
  | [] :: rest, funcs => parseLoop Atoi c rest funcs
  | [redisAddress, redisKey, arg2] :: rest, _ =>
    parseLoop Atoi c rest
      { redisAddr := redisAddress
        redisKey := redisKey
        loadThreshold := (Atoi arg2).1
        onStartUpFunc := some (fun _ => none)
        onShutdownFunc := some (fun _ => none) }
  | _ :: _, _ => (none, some c.ArgErr)

/-- The Go function `parse`: the pointer to `funcs` and the error. -/
def parse (Atoi : String → Int × Option Error) (c : Controller) :
    Option lcFuncs × Option Error :=
  parseLoop Atoi c c.lines
    { redisAddr := "", redisKey := "", loadThreshold := 0,
      onStartUpFunc := none, onShutdownFunc := none }

/-- The error `strconv.ErrSyntax`. -/
def errSyntax : Error := Error.other "invalid syntax"

/-- The error `strconv.ErrRange`. -/
def errRange : Error := Error.other "value out of range"

/-- The digit loop of the Go library function `strconv.ParseUint(s, 10, 64)`: a byte
that is not a decimal digit gives a syntax error with value 0; an overflow of 64 bits
gives a range error with the largest value, as soon as it is met. -/
def parseUintLoop : List Char → Nat → Nat × Option Error
  | [], n => (n, none)
  | ch :: rest, n =>
    if '0' ≤ ch ∧ ch ≤ '9' then
      if n ≥ 18446744073709551615 / 10 + 1 then (18446744073709551615, some errRange)
      else if n * 10 + (ch.toNat - 48) > 18446744073709551615 then
        (18446744073709551615, some errRange)
      else parseUintLoop rest (n * 10 + (ch.toNat - 48))
    else (0, some errSyntax)

/-- The Go library function `strconv.Atoi` where `int` has 64 bits, i.e.
`strconv.ParseInt(s, 10, 0)`: an optional sign, then decimal digits. With a syntax
error the value is 0; with a range error it is the largest or the smallest `int`. -/
def strconvAtoi (s : String) : Int × Option Error :=
  match s.data with
  | [] => (0, some errSyntax)
  | ch :: rest =>
    let neg : Bool := decide (ch = '-')
    let digits : List Char := if ch = '+' ∨ ch = '-' then rest else ch :: rest
    if digits = [] then (0, some errSyntax)
    else
      match parseUintLoop digits 0 with
      | (un, err) =>
        if err ≠ none ∧ err ≠ some errRange then (0, err)
        else if neg = false ∧ un ≥ 9223372036854775808 then
          (9223372036854775807, some errRange)
        else if neg = true ∧ un > 9223372036854775808 then
          (-9223372036854775808, some errRange)
        else (if neg then -(un : Int) else (un : Int), none)

/-! ## Vocabulary of the specification -/

/-- The count the code observes for an address (0 when the store has no entry). -/
def observedCount (env : Env) (lc : LoadAware) (ip : String) : Int :=
  (getConnectionCountForIP env lc ip).1

/-- The store answers the lookup of `ip` with "no such field" (`redis.Nil`). -/
def notFound (env : Env) (lc : LoadAware) (ip : String) : Prop :=
  (env.HGet lc.RedisKey ip).2 = some Error.Nil

/-- The store call for `ip` fails with an error other than `redis.Nil`. -/
def storeError (env : Env) (lc : LoadAware) (ip : String) : Prop :=
  ∃ e, (env.HGet lc.RedisKey ip).2 = some e ∧ e ≠ Error.Nil

/-- The store has a value for `ip` and it cannot be decoded. -/
def decodeError (env : Env) (lc : LoadAware) (ip : String) : Prop :=
  (env.HGet lc.RedisKey ip).2 = none ∧
    (env.Unmarshal (env.HGet lc.RedisKey ip).1).2 ≠ none

/-- The lookup of `ip` fails: store error or decode error. -/
def lookupFails (env : Env) (lc : LoadAware) (ip : String) : Prop :=
  storeError env lc ip ∨ decodeError env lc ip

/-- An address is eligible when its observed count is strictly below the threshold. -/
def eligible (env : Env) (lc : LoadAware) (ip : String) : Bool :=
  decide (observedCount env lc ip < lc.LoadThreshold)

/-- The address records of an answer, in order. -/
def aRecords : List RR → List A
  | [] => []
  | RR.A aRecord :: rest => aRecord :: aRecords rest
  | RR.other _ :: rest => aRecords rest

/-- The non-address records of an answer, in order. -/
def others : List RR → List RR
  | [] => []
  | RR.A _ :: rest => others rest
  | RR.other rr :: rest => RR.other rr :: others rest

/-- The addresses of the address records of an answer, in order (with repetitions). -/
def addresses (answer : List RR) : List String := (aRecords answer).map A.A

/-- Of the records that carry the same address, keep the one that occurs last. -/
def keepLast : List A → List A
  | [] => []
  | a :: rest => if a.A ∈ rest.map A.A then keepLast rest else a :: keepLast rest

/-- The addresses the sorter returns out of `ks` when no lookup fails: the eligible
ones, or every address when none of `ks` is eligible. -/
def selected (env : Env) (lc : LoadAware) (ks : List String) (k : String) : Bool :=
  if ks.any (eligible env lc) then eligible env lc k else true

/-- A written entry is an address record with address `k`. -/
def hasAddress (k : String) : Option RR → Bool
  | some (RR.A a) => decide (a.A = k)
  | _ => false

/-- The last address record of an answer that carries the address `k`. -/
def lastRecord (answer : List RR) (k : String) : Option A :=
  (aRecords answer).reverse.find? (fun a => decide (a.A = k))

/-! ## Concrete environments used for examples -/

/-- A store: `10.0.0.1` has 3 connections, `10.0.0.2` has 15, `10.0.0.4` has -1,
`10.0.0.5` has 15, `10.0.0.6` and `10.0.0.7` have 3 each, `10.0.0.8` holds a value
that does not decode, the call for `10.0.0.9` fails; every other address has no entry. -/
def exHGet (_key : String) (field : String) : String × Option Error :=
  if field = "10.0.0.1" then ("count 3", none)
  else if field = "10.0.0.2" then ("count 15", none)
  else if field = "10.0.0.4" then ("count -1", none)
  else if field = "10.0.0.5" then ("count 15", none)
  else if field = "10.0.0.6" then ("count 3", none)
  else if field = "10.0.0.7" then ("count 3", none)
  else if field = "10.0.0.8" then ("garbage", none)
  else if field = "10.0.0.9" then ("", some (Error.other "i/o timeout"))
  else ("", some Error.Nil)

/-- Decoding of the values `exHGet` returns. -/
def exUnmarshal (data : String) : ConnStore × Option Error :=
  if data = "count 3" then ({ Address := "", Count := 3 }, none)
  else if data = "count 15" then ({ Address := "", Count := 15 }, none)
  else if data = "count -1" then ({ Address := "", Count := -1 }, none)
  else ({ Address := "", Count := 0 }, some (Error.other "invalid character"))

/-- Insertion sort along `less`; equal elements keep their order. -/
def exSort (less : String → String → Bool) (xs : List String) : List String :=
  List.insertionSort (fun a b => less b a = false) xs

/-- An environment whose `range` visits keys in the order they were first stored. -/
def exEnv : Env :=
  { HGet := exHGet
    Unmarshal := exUnmarshal
    rangeOrder := fun _ ks => ks
    sortSlice := exSort
    sinkWriteMsg := fun _ => none }

/-- An environment whose `range` visits keys in the opposite order, except in the
lookup loop. -/
def exEnvRev : Env :=
  { HGet := exHGet
    Unmarshal := exUnmarshal
    rangeOrder := fun n ks => if n = 0 then ks else ks.reverse
    sortSlice := exSort
    sinkWriteMsg := fun _ => none }

/-- A plugin configured with load threshold 10. -/
def exLc : LoadAware := { RedisKey := "conn", LoadThreshold := 10 }

/-- A plugin configured with load threshold 0. -/
def exLcZero : LoadAware := { RedisKey := "conn", LoadThreshold := 0 }

/-- An address record for `ip`. -/
def exA (ip : String) : A := { Hdr := "svc.example. 30 IN A", A := ip }

/-- A response message with the given answer section. -/
def exMsg (answer : List RR) : Msg := { MsgHdr := "id 1", Answer := answer }

/-- The answer `[10.0.0.1, CNAME, 10.0.0.2, 10.0.0.3]`. -/
def exMixed : Msg :=
  exMsg [RR.A (exA "10.0.0.1"), RR.other "cname", RR.A (exA "10.0.0.2"), RR.A (exA "10.0.0.3")]

/-- The scenario of the specification: the answer `[10.0.0.1, 10.0.0.2, 10.0.0.3]`. -/
def exScenario : Msg :=
  exMsg [RR.A (exA "10.0.0.1"), RR.A (exA "10.0.0.2"), RR.A (exA "10.0.0.3")]

/-- The answer `[10.0.0.2, CNAME, 10.0.0.9, 10.0.0.1]`; the store call for 10.0.0.9 fails. -/
def exFailing : Msg :=
  exMsg [RR.A (exA "10.0.0.2"), RR.other "cname", RR.A (exA "10.0.0.9"), RR.A (exA "10.0.0.1")]

/-- The answer `[10.0.0.2, 10.0.0.5]`, both addresses with count 15. -/
def exSaturated : Msg := exMsg [RR.A (exA "10.0.0.2"), RR.A (exA "10.0.0.5")]

/-- The answer `[10.0.0.6, 10.0.0.7]`, both addresses with count 3. -/
def exTie : Msg := exMsg [RR.A (exA "10.0.0.6"), RR.A (exA "10.0.0.7")]

/-- A candidate map with the keys 10.0.0.3 (no entry in the store) and 10.0.0.4 (count -1). -/
def exNegative : GoMap A := [("10.0.0.3", exA "10.0.0.3"), ("10.0.0.4", exA "10.0.0.4")]

/-- The answer `[10.0.0.1 (TTL 30), CNAME, 10.0.0.1 (TTL 60), 10.0.0.3]`: two records
carry the address 10.0.0.1. -/
def exDup : Msg :=
  exMsg [RR.A (exA "10.0.0.1"), RR.other "cname",
    RR.A { Hdr := "svc.example. 60 IN A", A := "10.0.0.1" }, RR.A (exA "10.0.0.3")]

/-- A controller with one occurrence of the directive, with the given arguments. -/
def exController (args : List String) : Controller :=
  { lines := [args], ArgErr := Error.other "Wrong argument count or unexpected line ending" }

/-! ## Lemmas on maps -/

theorem GoMap.set_of_not_mem {V : Type} (m : GoMap V) (k : String) (v : V)
    (h : k ∉ GoMap.keys m) : GoMap.set m k v = m ++ [(k, v)] := by
  induction m with
  | nil => rfl
  | cons p m ih =>
    obtain ⟨k0, v0⟩ := p
    simp only [GoMap.keys, List.map_cons, List.mem_cons, not_or] at h
    have hne : ¬ k0 = k := fun e => h.1 e.symm
    simp only [GoMap.set, hne, if_false, List.cons_append]
    rw [ih (by simpa [GoMap.keys] using h.2)]

theorem GoMap.keys_set_of_mem {V : Type} (m : GoMap V) (k : String) (v : V)
    (h : k ∈ GoMap.keys m) : GoMap.keys (GoMap.set m k v) = GoMap.keys m := by
  induction m with
  | nil => simp [GoMap.keys] at h
  | cons p m ih =>
    obtain ⟨k0, v0⟩ := p
    by_cases hk : k0 = k
    · simp [GoMap.set, hk, GoMap.keys]
    · have hm : k ∈ GoMap.keys m := by
        simp only [GoMap.keys, List.map_cons, List.mem_cons] at h
        rcases h with h | h
        · exact absurd h.symm hk
        · simpa [GoMap.keys] using h
      have := ih hm
      simp only [GoMap.keys] at this
      simp [GoMap.set, hk, GoMap.keys, this]

theorem GoMap.nodup_keys_set {V : Type} (m : GoMap V) (k : String) (v : V)
    (h : (GoMap.keys m).Nodup) : (GoMap.keys (GoMap.set m k v)).Nodup := by
  by_cases hk : k ∈ GoMap.keys m
  · rw [GoMap.keys_set_of_mem m k v hk]; exact h
  · rw [GoMap.set_of_not_mem m k v hk]
    simp only [GoMap.keys, List.map_append, List.map_cons, List.map_nil]
    rw [List.nodup_append]
    refine ⟨h, List.nodup_singleton k, ?_⟩
    intro a ha hb
    simp only [List.mem_singleton] at hb
    subst hb
    exact hk ha

theorem GoMap.get_of_mem {V : Type} (m : GoMap V) (k : String) (v : V)
    (h : (GoMap.keys m).Nodup) (hm : (k, v) ∈ m) : GoMap.get m k = some v := by
  induction m with
  | nil => simp at hm
  | cons p m ih =>
    obtain ⟨k0, v0⟩ := p
    simp only [GoMap.keys, List.map_cons, List.nodup_cons] at h
    simp only [List.mem_cons, Prod.mk.injEq] at hm
    rcases hm with ⟨h1, h2⟩ | hm
    · simp [GoMap.get, h1, h2]
    · have hne : ¬ k0 = k := by
        intro e
        apply h.1
        rw [e]
        exact List.mem_map.mpr ⟨(k, v), hm, rfl⟩
      simp only [GoMap.get, hne, if_false]
      exact ih h.2 hm

theorem GoMap.get_eq_none {V : Type} (m : GoMap V) (k : String)
    (h : k ∉ GoMap.keys m) : GoMap.get m k = none := by
  induction m with
  | nil => rfl
  | cons p m ih =>
    obtain ⟨k0, v0⟩ := p
    simp only [GoMap.keys, List.map_cons, List.mem_cons, not_or] at h
    have hne : ¬ k0 = k := fun e => h.1 e.symm
    simp only [GoMap.get, hne, if_false]
    exact ih (by simpa [GoMap.keys] using h.2)

/-- Writing a key replaces its entry and leaves the others. -/
theorem GoMap.set_perm {V : Type} (m : GoMap V) (k : String) (v : V)
    (h : (GoMap.keys m).Nodup) :
    (GoMap.set m k v).Perm (m.filter (fun p => decide (p.1 ≠ k)) ++ [(k, v)]) := by
  induction m with
  | nil => simp [GoMap.set]
  | cons p m ih =>
    obtain ⟨k0, v0⟩ := p
    simp only [GoMap.keys, List.map_cons, List.nodup_cons] at h
    by_cases hk : k0 = k
    · subst hk
      have hfil : m.filter (fun p => decide (p.1 ≠ k0)) = m := by
        apply List.filter_eq_self.mpr
        intro p hp
        have : p.1 ≠ k0 := by
          intro e
          apply h.1
          rw [← e]
          exact List.mem_map.mpr ⟨p, hp, rfl⟩
        simpa using this
      simp only [GoMap.set, if_true, List.filter_cons, ne_eq, not_true_eq_false, decide_False,
        Bool.false_eq_true, if_false, hfil]
      exact (List.perm_append_singleton (k0, v) m).symm
    · simp only [GoMap.set, hk, if_false, List.filter_cons, ne_eq, not_false_eq_true,
        decide_True, if_true, List.cons_append]
      exact List.Perm.cons _ (ih h.2)

/-! ## Lemmas on the partition loop -/

theorem extract_eq (l : List RR) (m : GoMap A) (o : List RR) :
    extract l m o = ((aRecords l).foldl (fun m a => GoMap.set m a.A a) m, o ++ others l) := by
  induction l generalizing m o with
  | nil => simp [extract, aRecords, others]
  | cons r rest ih =>
    cases r with
    | A a => simp [extract, aRecords, others, ih]
    | other rr => simp [extract, aRecords, others, ih]

/-- After storing records one by one, the map holds the old entries whose address
was not overwritten, and for each address stored the last record stored. -/
theorem foldl_set_spec (as : List A) (m : GoMap A) (h : (GoMap.keys m).Nodup) :
    (GoMap.keys (as.foldl (fun m a => GoMap.set m a.A a) m)).Nodup ∧
    (as.foldl (fun m a => GoMap.set m a.A a) m).Perm
      (m.filter (fun p => decide (p.1 ∉ as.map A.A)) ++ (keepLast as).map (fun a => (a.A, a))) := by
  induction as generalizing m with
  | nil => simp [keepLast, h]
  | cons a rest ih =>
    have hnd := GoMap.nodup_keys_set m a.A a h
    obtain ⟨h1, h2⟩ := ih (GoMap.set m a.A a) hnd
    refine ⟨by simpa using h1, ?_⟩
    simp only [List.foldl_cons]
    refine h2.trans ?_
    have hp := (GoMap.set_perm m a.A a h).filter (fun p => decide (p.1 ∉ rest.map A.A))
    have hff : (m.filter (fun p => decide (p.1 ≠ a.A))).filter
        (fun p => decide (p.1 ∉ rest.map A.A))
        = m.filter (fun p => decide (p.1 ∉ (a :: rest).map A.A)) := by
      rw [List.filter_filter]
      apply List.filter_congr
      intro p _
      simp only [List.map_cons, List.mem_cons, not_or, ne_eq, Bool.decide_and,
        Bool.and_comm]
    rw [List.filter_append, hff] at hp
    by_cases hin : a.A ∈ rest.map A.A
    · have hs : [(a.A, a)].filter (fun p => decide (p.1 ∉ rest.map A.A)) = [] := by
        have hin2 := hin
        simp only [List.mem_map] at hin2
        simpa using hin2
      rw [hs, List.append_nil] at hp
      simp only [keepLast, hin, if_true]
      exact List.Perm.append_right _ hp
    · have hs : [(a.A, a)].filter (fun p => decide (p.1 ∉ rest.map A.A)) = [(a.A, a)] := by
        have hin2 := hin
        simp only [List.mem_map, not_exists, not_and] at hin2
        simpa using hin2
      rw [hs] at hp
      simp only [keepLast, hin, if_false, List.map_cons]
      have := List.Perm.append_right ((keepLast rest).map (fun a => (a.A, a))) hp
      simpa [List.append_assoc] using this

/-- The map built by the partition loop: its keys are distinct and its entries are
the last record of each address. -/
theorem extract_ipMap (l : List RR) :
    (GoMap.keys (extract l [] []).1).Nodup ∧
    (extract l [] []).1.Perm ((keepLast (aRecords l)).map (fun a => (a.A, a))) := by
  rw [extract_eq]
  have := foldl_set_spec (aRecords l) [] (by simp [GoMap.keys])
  simpa using this

theorem extract_others (l : List RR) : (extract l [] []).2 = others l := by
  rw [extract_eq]; simp

theorem keepLast_of_nodup (as : List A) (h : (as.map A.A).Nodup) : keepLast as = as := by
  induction as with
  | nil => rfl
  | cons a rest ih =>
    simp only [List.map_cons, List.nodup_cons] at h
    simp [keepLast, h.1, ih h.2]

/-- Reading a map at keys that are a selection of its keys, in any order, yields
the selected entries. -/
theorem GoMap.map_get_perm {V : Type} (m : GoMap V) (p : String → Bool) (ks : List String)
    (h : (GoMap.keys m).Nodup) (hks : ks.Perm ((GoMap.keys m).filter p)) :
    (ks.map (fun k => GoMap.get m k)).Perm ((m.filter (fun e => p e.1)).map (fun e => some e.2)) := by
  refine (hks.map _).trans ?_
  have : ((GoMap.keys m).filter p).map (fun k => GoMap.get m k)
      = (m.filter (fun e => p e.1)).map (fun e => some e.2) := by
    simp only [GoMap.keys, List.filter_map, List.map_map]
    apply List.map_congr_left
    intro e he
    have hm : e ∈ m := (List.mem_filter.mp he).1
    simpa using GoMap.get_of_mem m e.1 e.2 h hm
  rw [this]

/-! ## Lemmas on the sorter -/

theorem getConnectionCountForIP_err_iff (env : Env) (lc : LoadAware) (ip : String) :
    (getConnectionCountForIP env lc ip).2 ≠ none ↔ lookupFails env lc ip := by
  unfold getConnectionCountForIP lookupFails storeError decodeError
  rcases hg : env.HGet lc.RedisKey ip with ⟨d, e⟩
  cases e with
  | some e =>
    by_cases he : e = Error.Nil
    · simp [he]
    · simp [he]
  | none =>
    rcases hu : env.Unmarshal d with ⟨c, e2⟩
    cases e2 <;> simp [hu]

theorem getConnectionCountForIP_ok (env : Env) (lc : LoadAware) (ip : String)
    (h : ¬ lookupFails env lc ip) :
    getConnectionCountForIP env lc ip = (observedCount env lc ip, none) := by
  have h2 : (getConnectionCountForIP env lc ip).2 = none := by
    by_contra hc
    exact h ((getConnectionCountForIP_err_iff env lc ip).mp hc)
  unfold observedCount
  rw [← h2]

/-- Without a failing lookup the loop runs to its end and looks every key up. -/
theorem lookupLoop_ok (env : Env) (lc : LoadAware) (ks : List String) (m : GoMap Int)
    (log : List String) (h : ∀ k ∈ ks, ¬ lookupFails env lc k) :
    lookupLoop env lc ks m log =
      ((ks.foldl (fun m k => if observedCount env lc k < lc.LoadThreshold
          then GoMap.set m k (observedCount env lc k) else m) m, none), log ++ ks) := by
  induction ks generalizing m log with
  | nil => simp [lookupLoop]
  | cons k rest ih =>
    have hk := getConnectionCountForIP_ok env lc k (h k (List.mem_cons_self _ _))
    unfold lookupLoop
    rw [hk]
    simp only [List.foldl_cons]
    rw [ih _ _ (fun k2 hk2 => h k2 (List.mem_cons_of_mem _ hk2))]
    simp

/-- A failing lookup among the keys makes the loop stop with an error. -/
theorem lookupLoop_err (env : Env) (lc : LoadAware) (ks : List String) (m : GoMap Int)
    (log : List String) (h : ∃ k ∈ ks, lookupFails env lc k) :
    (lookupLoop env lc ks m log).1.2 ≠ none := by
  induction ks generalizing m log with
  | nil => simp at h
  | cons k rest ih =>
    unfold lookupLoop
    rcases hg : getConnectionCountForIP env lc k with ⟨c, e⟩
    cases e with
    | some e => simp
    | none =>
      simp only
      apply ih
      obtain ⟨k2, hk2, hf⟩ := h
      rcases List.mem_cons.mp hk2 with heq | hmem
      · subst heq
        have := (getConnectionCountForIP_err_iff env lc k2).mpr hf
        rw [hg] at this
        exact absurd rfl this
      · exact ⟨k2, hmem, hf⟩

/-- An error of the loop comes from a failing lookup. -/
theorem lookupLoop_err_inv (env : Env) (lc : LoadAware) (ks : List String) (m : GoMap Int)
    (log : List String) (h : (lookupLoop env lc ks m log).1.2 ≠ none) :
    ∃ k ∈ ks, lookupFails env lc k := by
  by_contra hc
  have hall : ∀ k ∈ ks, ¬ lookupFails env lc k := fun k hk hf => hc ⟨k, hk, hf⟩
  rw [lookupLoop_ok env lc ks m log hall] at h
  exact h rfl

/-- The counts recorded over distinct fresh keys: one entry per eligible key. -/
theorem foldl_count_spec (env : Env) (lc : LoadAware) (ks : List String) (m : GoMap Int)
    (hnd : ks.Nodup) (hfresh : ∀ k ∈ ks, k ∉ GoMap.keys m) :
    ks.foldl (fun m k => if observedCount env lc k < lc.LoadThreshold
        then GoMap.set m k (observedCount env lc k) else m) m
      = m ++ (ks.filter (eligible env lc)).map (fun k => (k, observedCount env lc k)) := by
  induction ks generalizing m with
  | nil => simp
  | cons k rest ih =>
    simp only [List.nodup_cons] at hnd
    simp only [List.foldl_cons]
    by_cases he : observedCount env lc k < lc.LoadThreshold
    · have hk : k ∉ GoMap.keys m := hfresh k (List.mem_cons_self _ _)
      rw [if_pos he, GoMap.set_of_not_mem m k _ hk, ih _ hnd.2]
      · simp [List.filter_cons, eligible, he]
      · intro k2 hk2 hin
        simp only [GoMap.keys, List.map_append, List.map_cons, List.map_nil, List.mem_append,
          List.mem_singleton] at hin
        rcases hin with hin | hin
        · exact hfresh k2 (List.mem_cons_of_mem _ hk2) (by simpa [GoMap.keys] using hin)
        · subst hin; exact hnd.1 hk2
    · rw [if_neg he, ih _ hnd.2 (fun k2 hk2 => hfresh k2 (List.mem_cons_of_mem _ hk2))]
      simp [List.filter_cons, eligible, he]

theorem strictWeak_of_key (f : String → Int) :
    StrictWeak (fun a b => decide (f a < f b)) where
  irrefl := by intro a; simp
  trans := by
    intro a b c h1 h2
    simp only [decide_eq_true_eq] at *
    omega
  incomp := by
    intro a b c h1 h2
    simp only [decide_eq_false_iff_not] at *
    omega

/-- The sorter on a failing lookup: the nil slice and an error. -/
theorem getSortedHostsByLoad_err (env : Env) (lc : LoadAware) (ipMap : GoMap A)
    (hv : env.Valid) (h : ∃ k ∈ GoMap.keys ipMap, lookupFails env lc k) :
    ∃ e, (getSortedHostsByLoad env lc ipMap).1 = ([], some e) := by
  have h0 : ∃ k ∈ env.rangeOrder 0 (GoMap.keys ipMap), lookupFails env lc k := by
    obtain ⟨k, hk, hf⟩ := h
    exact ⟨k, (hv.range_perm 0 _).mem_iff.mpr hk, hf⟩
  have := lookupLoop_err env lc _ [] [] h0
  unfold getSortedHostsByLoad
  rcases hl : lookupLoop env lc (env.rangeOrder 0 (GoMap.keys ipMap)) [] [] with ⟨⟨m, e⟩, log⟩
  rw [hl] at this
  cases e with
  | none => exact absurd rfl this
  | some e => exact ⟨e, rfl⟩

/-- The sorter when no lookup fails: no error; all the keys when none is eligible,
else the eligible keys in ascending order of observed count. -/
theorem getSortedHostsByLoad_ok (env : Env) (lc : LoadAware) (ipMap : GoMap A)
    (hv : env.Valid) (hnd : (GoMap.keys ipMap).Nodup)
    (h : ∀ k ∈ GoMap.keys ipMap, ¬ lookupFails env lc k) :
    (getSortedHostsByLoad env lc ipMap).1.2 = none ∧
    (getSortedHostsByLoad env lc ipMap).2 = env.rangeOrder 0 (GoMap.keys ipMap) ∧
    ((∀ k ∈ GoMap.keys ipMap, eligible env lc k = false) →
      (getSortedHostsByLoad env lc ipMap).1.1.Perm (GoMap.keys ipMap)) ∧
    ((∃ k ∈ GoMap.keys ipMap, eligible env lc k = true) →
      (getSortedHostsByLoad env lc ipMap).1.1.Perm ((GoMap.keys ipMap).filter (eligible env lc)) ∧
      (getSortedHostsByLoad env lc ipMap).1.1.Pairwise
        (fun a b => observedCount env lc a ≤ observedCount env lc b)) := by
  have hp0 := hv.range_perm 0 (GoMap.keys ipMap)
  have hnd0 : (env.rangeOrder 0 (GoMap.keys ipMap)).Nodup := hp0.nodup_iff.mpr hnd
  have h0 : ∀ k ∈ env.rangeOrder 0 (GoMap.keys ipMap), ¬ lookupFails env lc k :=
    fun k hk => h k (hp0.mem_iff.mp hk)
  have hl := lookupLoop_ok env lc _ [] [] h0
  rw [foldl_count_spec env lc _ [] hnd0 (by simp [GoMap.keys])] at hl
  simp only [List.nil_append] at hl
  have hE : ((env.rangeOrder 0 (GoMap.keys ipMap)).filter (eligible env lc)).Perm
      ((GoMap.keys ipMap).filter (eligible env lc)) := hp0.filter _
  unfold getSortedHostsByLoad
  rw [hl]
  simp only [List.length_map]
  by_cases hlen : ((env.rangeOrder 0 (GoMap.keys ipMap)).filter (eligible env lc)).length = 0
  · have hnil := List.length_eq_zero.mp hlen
    have hnone : ∀ k ∈ GoMap.keys ipMap, eligible env lc k = false := by
      intro k hk
      have : k ∉ (env.rangeOrder 0 (GoMap.keys ipMap)).filter (eligible env lc) := by
        rw [hnil]; simp
      rw [List.mem_filter] at this
      have hk0 := hp0.mem_iff.mpr hk
      cases hek : eligible env lc k
      · rfl
      · exact absurd ⟨hk0, hek⟩ this
    rw [if_pos hlen]
    refine ⟨rfl, rfl, fun _ => hv.range_perm 1 _, ?_⟩
    rintro ⟨k, hk, he⟩
    rw [hnone k hk] at he
    exact absurd he (by simp)
  · have hkeys : GoMap.keys (((env.rangeOrder 0 (GoMap.keys ipMap)).filter (eligible env lc)).map
        (fun k => (k, observedCount env lc k)))
        = (env.rangeOrder 0 (GoMap.keys ipMap)).filter (eligible env lc) := by
      simp [GoMap.keys, List.map_map, Function.comp_def]
    rw [if_neg hlen, hkeys]
    dsimp only
    refine ⟨rfl, rfl, ?_, fun _ => ?_⟩
    · intro hnone
      exfalso
      apply hlen
      rw [List.length_eq_zero, List.filter_eq_nil_iff]
      intro k hk
      rw [hnone k (hp0.mem_iff.mp hk)]
      simp
    · have hperm := (hv.sort_perm
          (fun a b => decide (GoMap.index (((env.rangeOrder 0 (GoMap.keys ipMap)).filter
              (eligible env lc)).map (fun k => (k, observedCount env lc k))) a
            < GoMap.index (((env.rangeOrder 0 (GoMap.keys ipMap)).filter
              (eligible env lc)).map (fun k => (k, observedCount env lc k))) b))
          (env.rangeOrder 2 ((env.rangeOrder 0 (GoMap.keys ipMap)).filter
              (eligible env lc)))).trans (hv.range_perm 2 _)
      refine ⟨hperm.trans hE, ?_⟩
      have hs := hv.sort_sorted _
        (env.rangeOrder 2 ((env.rangeOrder 0 (GoMap.keys ipMap)).filter (eligible env lc)))
        (strictWeak_of_key (GoMap.index (((env.rangeOrder 0 (GoMap.keys ipMap)).filter
              (eligible env lc)).map (fun k => (k, observedCount env lc k)))))
      have hidx : ∀ k ∈ (env.rangeOrder 0 (GoMap.keys ipMap)).filter (eligible env lc),
          GoMap.index (((env.rangeOrder 0 (GoMap.keys ipMap)).filter
              (eligible env lc)).map (fun k => (k, observedCount env lc k))) k
            = observedCount env lc k := by
        intro k hk
        unfold GoMap.index
        rw [GoMap.get_of_mem _ k (observedCount env lc k)]
        · rfl
        · rw [hkeys]; exact hnd0.filter _
        · exact List.mem_map.mpr ⟨k, hk, rfl⟩
      refine List.Pairwise.imp_of_mem ?_ hs
      intro a b ha hb hab
      rw [hidx a (hperm.mem_iff.mp ha), hidx b (hperm.mem_iff.mp hb)] at hab
      simpa using hab

/-! ## Lemmas on the interceptor -/

theorem mem_keepLast_addr (as : List A) (k : String) :
    k ∈ (keepLast as).map A.A ↔ k ∈ as.map A.A := by
  induction as with
  | nil => simp [keepLast]
  | cons a rest ih =>
    by_cases hin : a.A ∈ rest.map A.A
    · simp only [keepLast, hin, if_true, List.map_cons, List.mem_cons, ih]
      constructor
      · exact Or.inr
      · rintro (h | h)
        · rw [h]; exact hin
        · exact h
    · simp only [keepLast, hin, if_false, List.map_cons, List.mem_cons, ih]

/-- The keys of the map built by the partition loop are the addresses of the answer. -/
theorem mem_keys_extract (l : List RR) (k : String) :
    k ∈ GoMap.keys (extract l [] []).1 ↔ k ∈ addresses l := by
  have hp := ((extract_ipMap l).2.map Prod.fst).mem_iff (a := k)
  unfold GoMap.keys addresses
  rw [hp, ← mem_keepLast_addr]
  simp [List.map_map, Function.comp_def]

theorem keys_extract_perm (l : List RR) :
    (GoMap.keys (extract l [] []).1).Perm ((keepLast (aRecords l)).map A.A) := by
  have hp := (extract_ipMap l).2.map Prod.fst
  unfold GoMap.keys
  refine hp.trans ?_
  simp [List.map_map, Function.comp_def]

/-- The interceptor on a failing lookup: one write, of the message as received. -/
theorem WriteMsg_err (env : Env) (lc : LoadAware) (res : Msg) (hv : env.Valid)
    (h : ∃ k ∈ addresses res.Answer, lookupFails env lc k) :
    WriteMsg env lc (some res) =
      { writes := [some res.toW]
        lookups := (getSortedHostsByLoad env lc (extract res.Answer [] []).1).2
        ret := env.sinkWriteMsg (some res.toW) } := by
  have hk : ∃ k ∈ GoMap.keys (extract res.Answer [] []).1, lookupFails env lc k := by
    obtain ⟨k, hk, hf⟩ := h
    exact ⟨k, (mem_keys_extract _ k).mpr hk, hf⟩
  obtain ⟨e, he⟩ := getSortedHostsByLoad_err env lc _ hv hk
  unfold WriteMsg
  rcases hx : extract res.Answer [] [] with ⟨ipMap, otherRecords⟩
  rw [hx] at he
  rcases hg : getSortedHostsByLoad env lc ipMap with ⟨⟨l, e2⟩, log⟩
  rw [hg] at he
  simp only [Prod.mk.injEq] at he
  obtain ⟨_, he2⟩ := he
  subst he2
  simp only [hx, hg]

/-- The interceptor when no lookup fails: one write, of the non-address records
followed by the records the map holds for the addresses the sorter returned. -/
theorem WriteMsg_ok (env : Env) (lc : LoadAware) (res : Msg) (hv : env.Valid)
    (h : ∀ k ∈ addresses res.Answer, ¬ lookupFails env lc k) :
    WriteMsg env lc (some res) =
      { writes := [some { MsgHdr := res.MsgHdr
                          Answer := (others res.Answer).map some ++
                            (getSortedHostsByLoad env lc (extract res.Answer [] []).1).1.1.map
                              (fun ip => (GoMap.get (extract res.Answer [] []).1 ip).map RR.A) }]
        lookups := (getSortedHostsByLoad env lc (extract res.Answer [] []).1).2
        ret := env.sinkWriteMsg (some
          { MsgHdr := res.MsgHdr
            Answer := (others res.Answer).map some ++
              (getSortedHostsByLoad env lc (extract res.Answer [] []).1).1.1.map
                (fun ip => (GoMap.get (extract res.Answer [] []).1 ip).map RR.A) }) } := by
  have hk : ∀ k ∈ GoMap.keys (extract res.Answer [] []).1, ¬ lookupFails env lc k :=
    fun k hk => h k ((mem_keys_extract _ k).mp hk)
  have hnone := (getSortedHostsByLoad_ok env lc _ hv (extract_ipMap res.Answer).1 hk).1
  have ho := extract_others res.Answer
  unfold WriteMsg
  rcases hx : extract res.Answer [] [] with ⟨ipMap, otherRecords⟩
  rw [hx] at hnone ho
  rcases hg : getSortedHostsByLoad env lc ipMap with ⟨⟨l, e2⟩, log⟩
  rw [hg] at hnone
  simp only at hnone ho
  subst hnone
  subst ho
  simp only [hx, hg]

/-- The records written for the addresses the sorter returned, when these are a
selection of the addresses: the last record of each selected address. -/
theorem map_get_extract_perm (l : List RR) (p : String → Bool) (ks : List String)
    (hks : ks.Perm ((GoMap.keys (extract l [] []).1).filter p)) :
    (ks.map (fun ip => (GoMap.get (extract l [] []).1 ip).map RR.A)).Perm
      (((keepLast (aRecords l)).filter (fun a => p a.A)).map (fun a => some (RR.A a))) := by
  obtain ⟨hnd, hperm⟩ := extract_ipMap l
  have h1 := (GoMap.map_get_perm (extract l [] []).1 p ks hnd hks).map (Option.map RR.A)
  simp only [List.map_map] at h1
  refine h1.trans ?_
  have h2 := ((hperm.filter (fun e => p e.1)).map (fun e => some (RR.A e.2)))
  have h3 : ((fun x => Option.map RR.A x) ∘ fun e : String × A => some e.2)
      = fun e => some (RR.A e.2) := by
    funext e; rfl
  rw [h3]
  refine h2.trans ?_
  rw [List.filter_map, List.map_map]
  rfl

/-! ## The example environments are valid -/

theorem exSort_sorted (less : String → String → Bool) (xs : List String)
    (h : StrictWeak less) : (exSort less xs).Pairwise (fun a b => less b a = false) := by
  haveI : IsTotal String (fun a b => less b a = false) := ⟨by
    intro a b
    cases hba : less b a
    · exact Or.inl rfl
    · cases hab : less a b
      · exact Or.inr rfl
      · have := h.trans a b a hab hba
        rw [h.irrefl a] at this
        exact absurd this (by simp)⟩
  haveI : IsTrans String (fun a b => less b a = false) := ⟨by
    intro a b c hab hbc
    exact h.incomp c b a hbc hab⟩
  exact List.sorted_insertionSort (fun a b => less b a = false) xs

theorem exEnv_valid : exEnv.Valid where
  range_perm := fun _ ks => List.Perm.refl ks
  sort_perm := fun less xs => List.perm_insertionSort (fun a b => less b a = false) xs
  sort_sorted := exSort_sorted

theorem exEnvRev_valid : exEnvRev.Valid where
  range_perm := by
    intro n ks
    show (if n = 0 then ks else ks.reverse).Perm ks
    split
    · exact List.Perm.refl ks
    · exact List.reverse_perm ks
  sort_perm := fun less xs => List.perm_insertionSort (fun a b => less b a = false) xs
  sort_sorted := exSort_sorted

theorem not_lookupFails_of (env : Env) (lc : LoadAware) (ip : String)
    (h : (getConnectionCountForIP env lc ip).2 = none) : ¬ lookupFails env lc ip := by
  intro hf
  exact (getConnectionCountForIP_err_iff env lc ip).mpr hf h

theorem lookupFails_of (env : Env) (lc : LoadAware) (ip : String) (e : Error)
    (h : (getConnectionCountForIP env lc ip).2 = some e) : lookupFails env lc ip := by
  apply (getConnectionCountForIP_err_iff env lc ip).mp
  rw [h]
  simp

/-! ## Selection and written address records -/

theorem others_aRecords_perm (l : List RR) :
    (others l ++ (aRecords l).map RR.A).Perm l := by
  induction l with
  | nil => simp [others, aRecords]
  | cons r rest ih =>
    cases r with
    | A a =>
      simp only [others, aRecords, List.map_cons]
      exact List.perm_middle.trans (List.Perm.cons _ ih)
    | other rr =>
      simp only [others, aRecords, List.cons_append]
      exact List.Perm.cons _ ih

theorem any_eligible_keys (env : Env) (lc : LoadAware) (l : List RR) :
    (GoMap.keys (extract l [] []).1).any (eligible env lc) = (addresses l).any (eligible env lc) := by
  rw [Bool.eq_iff_iff]
  simp only [List.any_eq_true]
  constructor
  · rintro ⟨k, hk, he⟩
    exact ⟨k, (mem_keys_extract l k).mp hk, he⟩
  · rintro ⟨k, hk, he⟩
    exact ⟨k, (mem_keys_extract l k).mpr hk, he⟩

/-- When no lookup fails, the sorter returns the selected keys, each once. -/
theorem sorted_perm_selected (env : Env) (lc : LoadAware) (l : List RR) (hv : env.Valid)
    (h : ∀ k ∈ addresses l, ¬ lookupFails env lc k) :
    (getSortedHostsByLoad env lc (extract l [] []).1).1.1.Perm
      ((GoMap.keys (extract l [] []).1).filter (selected env lc (addresses l))) := by
  have hk : ∀ k ∈ GoMap.keys (extract l [] []).1, ¬ lookupFails env lc k :=
    fun k hk => h k ((mem_keys_extract _ k).mp hk)
  obtain ⟨_, _, h1, h2⟩ := getSortedHostsByLoad_ok env lc _ hv (extract_ipMap l).1 hk
  by_cases hany : (addresses l).any (eligible env lc) = true
  · have hsel : selected env lc (addresses l) = eligible env lc := by
      funext k; simp only [selected, hany, if_true]
    rw [hsel]
    have hany2 := hany
    rw [← any_eligible_keys, List.any_eq_true] at hany2
    exact (h2 hany2).1
  · have hsel : selected env lc (addresses l) = fun _ => true := by
      funext k; simp only [selected, hany]; rfl
    rw [hsel, List.filter_true]
    apply h1
    intro k hk
    cases hek : eligible env lc k
    · rfl
    · exfalso
      apply hany
      rw [← any_eligible_keys, List.any_eq_true]
      exact ⟨k, hk, hek⟩

/-- When no lookup fails, the answer written is the non-address records followed by
the last record of each selected address, in some order. -/
theorem written_ok (env : Env) (lc : LoadAware) (res : Msg) (hv : env.Valid)
    (h : ∀ k ∈ addresses res.Answer, ¬ lookupFails env lc k) :
    ∃ addrPart : List (Option RR),
      (WriteMsg env lc (some res)).writes =
        [some { MsgHdr := res.MsgHdr, Answer := (others res.Answer).map some ++ addrPart }] ∧
      addrPart.Perm (((keepLast (aRecords res.Answer)).filter
        (fun a => selected env lc (addresses res.Answer) a.A)).map (fun a => some (RR.A a))) := by
  refine ⟨_, ?_, map_get_extract_perm res.Answer (selected env lc (addresses res.Answer)) _
    (sorted_perm_selected env lc res.Answer hv h)⟩
  rw [WriteMsg_ok env lc res hv h]

theorem keepLast_sublist (as : List A) : (keepLast as).Sublist as := by
  induction as with
  | nil => exact List.Sublist.slnil
  | cons a rest ih =>
    by_cases hin : a.A ∈ rest.map A.A
    · simp only [keepLast, hin, if_true]
      exact List.Sublist.cons a ih
    · simp only [keepLast, hin, if_false]
      exact List.Sublist.cons₂ a ih

theorem mem_of_mem_others (l : List RR) (r : RR) (h : r ∈ others l) : r ∈ l :=
  (others_aRecords_perm l).subset (List.mem_append_left _ h)

theorem mem_of_mem_aRecords (l : List RR) (a : A) (h : a ∈ aRecords l) : RR.A a ∈ l :=
  (others_aRecords_perm l).subset (List.mem_append_right _ (List.mem_map.mpr ⟨a, h, rfl⟩))

/-! ## C1: the records written -/

/-- C1 (as stated, refuted): with threshold 10, an answer with the address records
10.0.0.1 (count 3) and 10.0.0.2 (count 15) is written with the record of 10.0.0.2
dropped, so the multiset of written records differs from that of the input. -/
theorem C1_counterexample :
    exEnv.Valid ∧
    (WriteMsg exEnv exLc (some (exMsg [RR.A (exA "10.0.0.1"), RR.A (exA "10.0.0.2")]))).writes
      = [some { MsgHdr := "id 1", Answer := [some (RR.A (exA "10.0.0.1"))] }] ∧
    Multiset.ofList [some (RR.A (exA "10.0.0.1"))]
      ≠ Multiset.ofList ((exMsg [RR.A (exA "10.0.0.1"), RR.A (exA "10.0.0.2")]).Answer.map some) := by
  refine ⟨exEnv_valid, by decide, ?_⟩
  intro h
  have := congrArg Multiset.card h
  simp [exMsg] at this

/-- C1 (amended): for every non-absent message and every store behaviour, `WriteMsg`
writes one message and adds no record. If a lookup fails the answer written is the
input answer. Otherwise the multiset of written records is that of the non-address
records together with, for each selected address (the eligible addresses, or all of
them when none is eligible), the last input record with that address. When moreover
the addresses are pairwise distinct and every one of them is selected, the multiset
of written records equals that of the input records. -/
theorem C1_written_records (env : Env) (lc : LoadAware) (res : Msg) (hv : env.Valid) :
    ∃ out, (WriteMsg env lc (some res)).writes = [some out] ∧
      (∀ x ∈ out.Answer, ∃ r ∈ res.Answer, x = some r) ∧
      ((∃ k ∈ addresses res.Answer, lookupFails env lc k) →
        out.Answer = res.Answer.map some) ∧
      ((∀ k ∈ addresses res.Answer, ¬ lookupFails env lc k) →
        Multiset.ofList out.Answer = Multiset.ofList
          ((others res.Answer ++ ((keepLast (aRecords res.Answer)).filter
            (fun a => selected env lc (addresses res.Answer) a.A)).map RR.A).map some)) ∧
      ((∀ k ∈ addresses res.Answer, ¬ lookupFails env lc k) →
        (addresses res.Answer).Nodup →
        (∀ k ∈ addresses res.Answer, selected env lc (addresses res.Answer) k = true) →
        Multiset.ofList out.Answer = Multiset.ofList (res.Answer.map some)) := by
  by_cases hf : ∃ k ∈ addresses res.Answer, lookupFails env lc k
  · refine ⟨res.toW, by rw [WriteMsg_err env lc res hv hf], ?_, fun _ => rfl, ?_, ?_⟩
    · intro x hx
      obtain ⟨r, hr, hrx⟩ := List.mem_map.mp hx
      exact ⟨r, hr, hrx.symm⟩
    · intro hn
      obtain ⟨k, hk, hkf⟩ := hf
      exact absurd hkf (hn k hk)
    · intro hn
      obtain ⟨k, hk, hkf⟩ := hf
      exact absurd hkf (hn k hk)
  · have hn : ∀ k ∈ addresses res.Answer, ¬ lookupFails env lc k :=
      fun k hk hkf => hf ⟨k, hk, hkf⟩
    obtain ⟨addrPart, hw, hp⟩ := written_ok env lc res hv hn
    have hgen : ((others res.Answer).map some ++ addrPart).Perm
        ((others res.Answer ++ ((keepLast (aRecords res.Answer)).filter
          (fun a => selected env lc (addresses res.Answer) a.A)).map RR.A).map some) := by
      rw [List.map_append, List.map_map]
      exact List.Perm.append_left _ hp
    refine ⟨_, hw, ?_, fun h => absurd h hf, fun _ => Multiset.coe_eq_coe.mpr hgen, ?_⟩
    · intro x hx
      obtain ⟨r, hr, hrx⟩ := List.mem_map.mp (hgen.mem_iff.mp hx)
      refine ⟨r, ?_, hrx.symm⟩
      rcases List.mem_append.mp hr with hr | hr
      · exact mem_of_mem_others _ r hr
      · obtain ⟨a, ha, har⟩ := List.mem_map.mp hr
        rw [← har]
        exact mem_of_mem_aRecords _ a
          ((keepLast_sublist _).subset (List.mem_filter.mp ha).1)
    intro _ hnd hsel
    apply Multiset.coe_eq_coe.mpr
    refine hgen.trans ?_
    rw [keepLast_of_nodup _ hnd]
    have hall : (aRecords res.Answer).filter
        (fun a => selected env lc (addresses res.Answer) a.A) = aRecords res.Answer := by
      apply List.filter_eq_self.mpr
      intro a ha
      exact hsel a.A (List.mem_map.mpr ⟨a, ha, rfl⟩)
    rw [hall]
    exact (others_aRecords_perm res.Answer).map some

/-- C1, instance: threshold 10 and the answer `exMixed`. -/
theorem C1_written_records_witness :
    exEnv.Valid ∧
    ∃ out, (WriteMsg exEnv exLc (some exMixed)).writes = [some out] ∧
      (∀ x ∈ out.Answer, ∃ r ∈ exMixed.Answer, x = some r) ∧
      ((∃ k ∈ addresses exMixed.Answer, lookupFails exEnv exLc k) →
        out.Answer = exMixed.Answer.map some) ∧
      ((∀ k ∈ addresses exMixed.Answer, ¬ lookupFails exEnv exLc k) →
        Multiset.ofList out.Answer = Multiset.ofList
          ((others exMixed.Answer ++ ((keepLast (aRecords exMixed.Answer)).filter
            (fun a => selected exEnv exLc (addresses exMixed.Answer) a.A)).map RR.A).map some)) ∧
      ((∀ k ∈ addresses exMixed.Answer, ¬ lookupFails exEnv exLc k) →
        (addresses exMixed.Answer).Nodup →
        (∀ k ∈ addresses exMixed.Answer, selected exEnv exLc (addresses exMixed.Answer) k = true) →
        Multiset.ofList out.Answer = Multiset.ofList (exMixed.Answer.map some)) :=
  ⟨exEnv_valid, C1_written_records exEnv exLc exMixed exEnv_valid⟩

/-! ## C2: address records at or above the threshold -/

theorem not_mem_others (l : List RR) (a : A) : RR.A a ∉ others l := by
  induction l with
  | nil => simp [others]
  | cons r rest ih =>
    cases r with
    | A b => simpa [others] using ih
    | other rr => simpa [others] using ih

/-- The number of times a record is written, when no lookup fails and the addresses
are pairwise distinct: once if its address is selected, else never. -/
theorem count_written (env : Env) (lc : LoadAware) (res : Msg) (hv : env.Valid)
    (hnd : (addresses res.Answer).Nodup)
    (h : ∀ k ∈ addresses res.Answer, ¬ lookupFails env lc k)
    (a : A) (ha : a ∈ aRecords res.Answer) :
    ∃ out, (WriteMsg env lc (some res)).writes = [some out] ∧
      Multiset.count (some (RR.A a)) (Multiset.ofList out.Answer) =
        if selected env lc (addresses res.Answer) a.A = true then 1 else 0 := by
  obtain ⟨addrPart, hw, hp⟩ := written_ok env lc res hv h
  refine ⟨_, hw, ?_⟩
  have hndr : (aRecords res.Answer).Nodup := List.Nodup.of_map A.A hnd
  have hoth : some (RR.A a) ∉ (others res.Answer).map some := by
    intro hmem
    obtain ⟨r, hr, hre⟩ := List.mem_map.mp hmem
    have hra : r = RR.A a := Option.some.inj hre
    rw [hra] at hr
    exact not_mem_others res.Answer a hr
  have hinj : Function.Injective (fun a : A => some (RR.A a)) := by
    intro x y hxy
    simpa using hxy
  have hoth2 : some (RR.A a) ∉ Multiset.ofList ((others res.Answer).map some) := by
    rw [Multiset.mem_coe]; exact hoth
  rw [← Multiset.coe_add, Multiset.count_add, Multiset.count_eq_zero.mpr hoth2, zero_add,
    Multiset.coe_count, hp.count_eq (some (RR.A a)), keepLast_of_nodup _ hnd,
    List.count_map_of_injective _ _ hinj]
  by_cases hs : selected env lc (addresses res.Answer) a.A = true
  · rw [if_pos hs]
    apply List.count_eq_one_of_mem (hndr.filter _)
    exact List.mem_filter.mpr ⟨ha, hs⟩
  · rw [if_neg hs]
    apply List.count_eq_zero.mpr
    intro hm
    exact hs (List.mem_filter.mp hm).2

theorem exScenario_ok : ∀ k ∈ addresses exScenario.Answer, ¬ lookupFails exEnv exLc k := by
  intro k hk
  apply not_lookupFails_of
  have hk2 : k = "10.0.0.1" ∨ k = "10.0.0.2" ∨ k = "10.0.0.3" := by
    simpa [addresses, exScenario, exMsg, aRecords, exA] using hk
  rcases hk2 with h | h | h <;> subst h <;> decide

theorem exScenario_keys_ok :
    ∀ k ∈ GoMap.keys (extract exScenario.Answer [] []).1, ¬ lookupFails exEnv exLc k :=
  fun k hk => exScenario_ok k ((mem_keys_extract _ k).mp hk)

/-- C2 (as stated, refuted): in the scenario of the specification (threshold 10,
10.0.0.1 with count 3, 10.0.0.2 with count 15, 10.0.0.3 without entry) no lookup
fails and the addresses are distinct, yet the address records written are
`[10.0.0.3, 10.0.0.1]`: the record of 10.0.0.2 is not written at all. -/
theorem C2_counterexample :
    exEnv.Valid ∧
    (addresses exScenario.Answer).Nodup ∧
    (∀ k ∈ addresses exScenario.Answer, ¬ lookupFails exEnv exLc k) ∧
    observedCount exEnv exLc "10.0.0.1" < exLc.LoadThreshold ∧
    exLc.LoadThreshold ≤ observedCount exEnv exLc "10.0.0.2" ∧
    (WriteMsg exEnv exLc (some exScenario)).writes
      = [some { MsgHdr := "id 1"
                Answer := [some (RR.A (exA "10.0.0.3")), some (RR.A (exA "10.0.0.1"))] }] ∧
    some (RR.A (exA "10.0.0.2")) ∉
      [some (RR.A (exA "10.0.0.3")), some (RR.A (exA "10.0.0.1"))] :=
  ⟨exEnv_valid, by decide, exScenario_ok, by decide, by decide, by decide, by decide⟩

/-- C2 (amended): for every response whose address records have pairwise distinct
addresses and every store that returns no error, if at least one address has observed
count strictly below the threshold, then an address record whose count is at or above
the threshold is not written at all, and an address record whose count is below the
threshold is written exactly once. -/
theorem C2_over_threshold_dropped (env : Env) (lc : LoadAware) (res : Msg) (hv : env.Valid)
    (hnd : (addresses res.Answer).Nodup)
    (hok : ∀ k ∈ addresses res.Answer, ¬ lookupFails env lc k)
    (hel : ∃ k ∈ addresses res.Answer, observedCount env lc k < lc.LoadThreshold) :
    ∃ out, (WriteMsg env lc (some res)).writes = [some out] ∧
      (∀ a ∈ aRecords res.Answer, lc.LoadThreshold ≤ observedCount env lc a.A →
        some (RR.A a) ∉ out.Answer) ∧
      (∀ a ∈ aRecords res.Answer, observedCount env lc a.A < lc.LoadThreshold →
        Multiset.count (some (RR.A a)) (Multiset.ofList out.Answer) = 1) := by
  have hany : (addresses res.Answer).any (eligible env lc) = true := by
    rw [List.any_eq_true]
    obtain ⟨k, hk, hlt⟩ := hel
    exact ⟨k, hk, by simpa [eligible] using hlt⟩
  have hsel : ∀ k, selected env lc (addresses res.Answer) k = true ↔
      observedCount env lc k < lc.LoadThreshold := by
    intro k
    simp [selected, hany, eligible]
  obtain ⟨addrPart, hw, _⟩ := written_ok env lc res hv hok
  refine ⟨_, hw, ?_, ?_⟩
  · intro a ha hge
    obtain ⟨out, hw2, hc⟩ := count_written env lc res hv hnd hok a ha
    rw [hw] at hw2
    have hout := Option.some.inj (List.cons.inj hw2).1
    rw [← hout] at hc
    have hns : ¬ selected env lc (addresses res.Answer) a.A = true := by
      rw [hsel]; omega
    rw [if_neg hns] at hc
    have hnot := Multiset.count_eq_zero.mp hc
    simpa using hnot
  · intro a ha hlt
    obtain ⟨out, hw2, hc⟩ := count_written env lc res hv hnd hok a ha
    rw [hw] at hw2
    have hout := Option.some.inj (List.cons.inj hw2).1
    rw [← hout] at hc
    rw [if_pos ((hsel a.A).mpr hlt)] at hc
    exact hc

/-- C2, instance: the scenario of the specification. -/
theorem C2_over_threshold_dropped_witness :
    exEnv.Valid ∧
    (addresses exScenario.Answer).Nodup ∧
    (∀ k ∈ addresses exScenario.Answer, ¬ lookupFails exEnv exLc k) ∧
    (∃ k ∈ addresses exScenario.Answer, observedCount exEnv exLc k < exLc.LoadThreshold) ∧
    ∃ out, (WriteMsg exEnv exLc (some exScenario)).writes = [some out] ∧
      (∀ a ∈ aRecords exScenario.Answer, exLc.LoadThreshold ≤ observedCount exEnv exLc a.A →
        some (RR.A a) ∉ out.Answer) ∧
      (∀ a ∈ aRecords exScenario.Answer, observedCount exEnv exLc a.A < exLc.LoadThreshold →
        Multiset.count (some (RR.A a)) (Multiset.ofList out.Answer) = 1) :=
  ⟨exEnv_valid, by decide, exScenario_ok, ⟨"10.0.0.1", by decide, by decide⟩,
    C2_over_threshold_dropped exEnv exLc exScenario exEnv_valid (by decide) exScenario_ok
      ⟨"10.0.0.1", by decide, by decide⟩⟩

/-! ## C3: fail open on a failing lookup -/

/-- C3: for every non-absent response message, if the store lookup returns a
transport error or an undecodable value for at least one address of the answer, then
`WriteMsg` writes to the sink one message, whose answer list is the input answer list
(same records, same order) and whose other fields are those of the input. -/
theorem C3_fail_open (env : Env) (lc : LoadAware) (res : Msg) (hv : env.Valid)
    (h : ∃ a ∈ aRecords res.Answer, storeError env lc a.A ∨ decodeError env lc a.A) :
    ∃ out, (WriteMsg env lc (some res)).writes = [some out] ∧
      out.Answer = res.Answer.map some ∧ out.MsgHdr = res.MsgHdr := by
  have hf : ∃ k ∈ addresses res.Answer, lookupFails env lc k := by
    obtain ⟨a, ha, hfa⟩ := h
    exact ⟨a.A, List.mem_map.mpr ⟨a, ha, rfl⟩, hfa⟩
  exact ⟨res.toW, by rw [WriteMsg_err env lc res hv hf], rfl, rfl⟩

/-- C3, instance: the store call fails for 10.0.0.9, the third of four records. -/
theorem C3_fail_open_witness :
    exEnv.Valid ∧
    (∃ a ∈ aRecords exFailing.Answer, storeError exEnv exLc a.A ∨ decodeError exEnv exLc a.A) ∧
    ∃ out, (WriteMsg exEnv exLc (some exFailing)).writes = [some out] ∧
      out.Answer = exFailing.Answer.map some ∧ out.MsgHdr = exFailing.MsgHdr :=
  ⟨exEnv_valid, ⟨exA "10.0.0.9", by decide, Or.inl ⟨Error.other "i/o timeout", rfl, by decide⟩⟩,
    C3_fail_open exEnv exLc exFailing exEnv_valid
      ⟨exA "10.0.0.9", by decide, Or.inl ⟨Error.other "i/o timeout", rfl, by decide⟩⟩⟩

/-! ## C4, C5: the list the sorter returns -/

/-- C4: for every candidate map (distinct keys), every threshold and every error-free
store in which at least one candidate has observed count strictly below the threshold,
`getSortedHostsByLoad` returns no error and a list that contains exactly the eligible
candidates (observed count below the threshold, not-found counting as 0), each exactly
once; in particular an address whose count equals the threshold is not in the list. -/
theorem C4_exactly_eligible (env : Env) (lc : LoadAware) (ipMap : GoMap A) (hv : env.Valid)
    (hnd : (GoMap.keys ipMap).Nodup)
    (hok : ∀ k ∈ GoMap.keys ipMap, ¬ lookupFails env lc k)
    (hel : ∃ k ∈ GoMap.keys ipMap, observedCount env lc k < lc.LoadThreshold) :
    (getSortedHostsByLoad env lc ipMap).1.2 = none ∧
    (∀ ip, (getSortedHostsByLoad env lc ipMap).1.1.count ip =
      if ip ∈ GoMap.keys ipMap ∧ observedCount env lc ip < lc.LoadThreshold then 1 else 0) ∧
    (∀ ip, observedCount env lc ip = lc.LoadThreshold →
      ip ∉ (getSortedHostsByLoad env lc ipMap).1.1) := by
  obtain ⟨h1, _, _, h4⟩ := getSortedHostsByLoad_ok env lc ipMap hv hnd hok
  have hel2 : ∃ k ∈ GoMap.keys ipMap, eligible env lc k = true := by
    obtain ⟨k, hk, hlt⟩ := hel
    exact ⟨k, hk, by simpa [eligible] using hlt⟩
  obtain ⟨hp, _⟩ := h4 hel2
  have hmem : ∀ ip, ip ∈ (GoMap.keys ipMap).filter (eligible env lc) ↔
      ip ∈ GoMap.keys ipMap ∧ observedCount env lc ip < lc.LoadThreshold := by
    intro ip
    simp [List.mem_filter, eligible]
  refine ⟨h1, ?_, ?_⟩
  · intro ip
    rw [hp.count_eq ip, List.count_eq_of_nodup (hnd.filter _)]
    simp only [hmem]
  · intro ip heq hin
    have := (hmem ip).mp (hp.mem_iff.mp hin)
    omega

/-- C4, instance: threshold 10 and the candidates 10.0.0.1, 10.0.0.2, 10.0.0.3. -/
theorem C4_exactly_eligible_witness :
    exEnv.Valid ∧
    (GoMap.keys (extract exScenario.Answer [] []).1).Nodup ∧
    (∀ k ∈ GoMap.keys (extract exScenario.Answer [] []).1, ¬ lookupFails exEnv exLc k) ∧
    (∃ k ∈ GoMap.keys (extract exScenario.Answer [] []).1,
      observedCount exEnv exLc k < exLc.LoadThreshold) ∧
    (getSortedHostsByLoad exEnv exLc (extract exScenario.Answer [] []).1).1.2 = none ∧
    (∀ ip, (getSortedHostsByLoad exEnv exLc (extract exScenario.Answer [] []).1).1.1.count ip =
      if ip ∈ GoMap.keys (extract exScenario.Answer [] []).1 ∧
        observedCount exEnv exLc ip < exLc.LoadThreshold then 1 else 0) ∧
    (∀ ip, observedCount exEnv exLc ip = exLc.LoadThreshold →
      ip ∉ (getSortedHostsByLoad exEnv exLc (extract exScenario.Answer [] []).1).1.1) :=
  ⟨exEnv_valid, by decide, exScenario_keys_ok, ⟨"10.0.0.1", by decide, by decide⟩,
    C4_exactly_eligible exEnv exLc (extract exScenario.Answer [] []).1 exEnv_valid (by decide)
      exScenario_keys_ok ⟨"10.0.0.1", by decide, by decide⟩⟩

/-- C5: for every error-free store and every candidate map (distinct keys) with a
non-empty eligible set, the list returned by `getSortedHostsByLoad` is ascending by
observed count: for all positions `i < j`, the count of the `i`-th address is at most
the count of the `j`-th. -/
theorem C5_ascending (env : Env) (lc : LoadAware) (ipMap : GoMap A) (hv : env.Valid)
    (hnd : (GoMap.keys ipMap).Nodup)
    (hok : ∀ k ∈ GoMap.keys ipMap, ¬ lookupFails env lc k)
    (hel : ∃ k ∈ GoMap.keys ipMap, observedCount env lc k < lc.LoadThreshold) :
    ∀ (i j : Nat) (a b : String), i < j →
      (getSortedHostsByLoad env lc ipMap).1.1[i]? = some a →
      (getSortedHostsByLoad env lc ipMap).1.1[j]? = some b →
      observedCount env lc a ≤ observedCount env lc b := by
  obtain ⟨_, _, _, h4⟩ := getSortedHostsByLoad_ok env lc ipMap hv hnd hok
  have hel2 : ∃ k ∈ GoMap.keys ipMap, eligible env lc k = true := by
    obtain ⟨k, hk, hlt⟩ := hel
    exact ⟨k, hk, by simpa [eligible] using hlt⟩
  obtain ⟨_, hs⟩ := h4 hel2
  intro i j a b hij hi hj
  obtain ⟨hi1, hi2⟩ := List.getElem?_eq_some_iff.mp hi
  obtain ⟨hj1, hj2⟩ := List.getElem?_eq_some_iff.mp hj
  have := List.pairwise_iff_getElem.mp hs i j hi1 hj1 hij
  rw [hi2, hj2] at this
  exact this

/-- C5, instance: threshold 10 and the candidates 10.0.0.1, 10.0.0.2, 10.0.0.3. -/
theorem C5_ascending_witness :
    exEnv.Valid ∧
    (GoMap.keys (extract exScenario.Answer [] []).1).Nodup ∧
    (∀ k ∈ GoMap.keys (extract exScenario.Answer [] []).1, ¬ lookupFails exEnv exLc k) ∧
    (∃ k ∈ GoMap.keys (extract exScenario.Answer [] []).1,
      observedCount exEnv exLc k < exLc.LoadThreshold) ∧
    ∀ (i j : Nat) (a b : String), i < j →
      (getSortedHostsByLoad exEnv exLc (extract exScenario.Answer [] []).1).1.1[i]? = some a →
      (getSortedHostsByLoad exEnv exLc (extract exScenario.Answer [] []).1).1.1[j]? = some b →
      observedCount exEnv exLc a ≤ observedCount exEnv exLc b :=
  ⟨exEnv_valid, by decide, exScenario_keys_ok, ⟨"10.0.0.1", by decide, by decide⟩,
    C5_ascending exEnv exLc (extract exScenario.Answer [] []).1 exEnv_valid (by decide)
      exScenario_keys_ok ⟨"10.0.0.1", by decide, by decide⟩⟩

/-! ## C6: every address at or above the threshold -/

theorem exSaturated_ok : ∀ k ∈ addresses exSaturated.Answer, ¬ lookupFails exEnvRev exLc k := by
  intro k hk
  apply not_lookupFails_of
  have hk2 : k = "10.0.0.2" ∨ k = "10.0.0.5" := by
    simpa [addresses, exSaturated, exMsg, aRecords, exA] using hk
  rcases hk2 with h | h <;> subst h <;> decide

/-- C6 (as stated, refuted): with threshold 10 and the answer `[10.0.0.2, 10.0.0.5]`,
both with count 15, a `range` over the map that visits 10.0.0.5 first makes `WriteMsg`
write `[10.0.0.5, 10.0.0.2]`: the input order is not kept. -/
theorem C6_counterexample :
    exEnvRev.Valid ∧
    (∀ k ∈ addresses exSaturated.Answer, ¬ lookupFails exEnvRev exLc k) ∧
    (∀ k ∈ addresses exSaturated.Answer, exLc.LoadThreshold ≤ observedCount exEnvRev exLc k) ∧
    (WriteMsg exEnvRev exLc (some exSaturated)).writes
      = [some { MsgHdr := "id 1"
                Answer := [some (RR.A (exA "10.0.0.5")), some (RR.A (exA "10.0.0.2"))] }] ∧
    [some (RR.A (exA "10.0.0.5")), some (RR.A (exA "10.0.0.2"))]
      ≠ exSaturated.Answer.map some :=
  ⟨exEnvRev_valid, exSaturated_ok, by decide, by decide, by decide⟩

/-- C6 (amended): for every non-absent response in which every address has observed
count at or above the threshold (store error-free), `getSortedHostsByLoad` returns
without error every candidate exactly once (so never an empty list for a non-empty
candidate set), in the order of a map iteration; the answer written is the non-address
records followed by the address records of the input, one per address (the last one
when several carry the same address), in that order, which need not be the input order. -/
theorem C6_saturated (env : Env) (lc : LoadAware) (res : Msg) (hv : env.Valid)
    (hok : ∀ k ∈ addresses res.Answer, ¬ lookupFails env lc k)
    (hsat : ∀ k ∈ addresses res.Answer, lc.LoadThreshold ≤ observedCount env lc k) :
    (getSortedHostsByLoad env lc (extract res.Answer [] []).1).1.2 = none ∧
    (getSortedHostsByLoad env lc (extract res.Answer [] []).1).1.1.Perm
      (GoMap.keys (extract res.Answer [] []).1) ∧
    (∀ k ∈ addresses res.Answer,
      (getSortedHostsByLoad env lc (extract res.Answer [] []).1).1.1.count k = 1) ∧
    ∃ addrPart : List (Option RR),
      (WriteMsg env lc (some res)).writes =
        [some { MsgHdr := res.MsgHdr, Answer := (others res.Answer).map some ++ addrPart }] ∧
      addrPart.Perm ((keepLast (aRecords res.Answer)).map (fun a => some (RR.A a))) := by
  have hk : ∀ k ∈ GoMap.keys (extract res.Answer [] []).1, ¬ lookupFails env lc k :=
    fun k hk => hok k ((mem_keys_extract _ k).mp hk)
  have hnd := (extract_ipMap res.Answer).1
  obtain ⟨h1, _, h3, _⟩ := getSortedHostsByLoad_ok env lc _ hv hnd hk
  have hnone : ∀ k ∈ GoMap.keys (extract res.Answer [] []).1, eligible env lc k = false := by
    intro k hk
    have := hsat k ((mem_keys_extract _ k).mp hk)
    simp only [eligible, decide_eq_false_iff_not]
    omega
  have hperm := h3 hnone
  have hall : (keepLast (aRecords res.Answer)).filter
      (fun a => selected env lc (addresses res.Answer) a.A) = keepLast (aRecords res.Answer) := by
    apply List.filter_eq_self.mpr
    intro a _
    have hany : ¬ (addresses res.Answer).any (eligible env lc) = true := by
      rw [List.any_eq_true]
      rintro ⟨k, hk, he⟩
      rw [hnone k ((mem_keys_extract _ k).mpr hk)] at he
      exact absurd he (by simp)
    simp only [selected, hany]
    rfl
  refine ⟨h1, hperm, ?_, ?_⟩
  · intro k hk
    rw [hperm.count_eq k]
    exact List.count_eq_one_of_mem hnd ((mem_keys_extract _ k).mpr hk)
  · obtain ⟨addrPart, hw, hp⟩ := written_ok env lc res hv hok
    rw [hall] at hp
    exact ⟨addrPart, hw, hp⟩

/-- C6, instance: threshold 10 and the answer `[10.0.0.2, 10.0.0.5]`, both with count 15. -/
theorem C6_saturated_witness :
    exEnvRev.Valid ∧
    (∀ k ∈ addresses exSaturated.Answer, ¬ lookupFails exEnvRev exLc k) ∧
    (∀ k ∈ addresses exSaturated.Answer, exLc.LoadThreshold ≤ observedCount exEnvRev exLc k) ∧
    (getSortedHostsByLoad exEnvRev exLc (extract exSaturated.Answer [] []).1).1.2 = none ∧
    (getSortedHostsByLoad exEnvRev exLc (extract exSaturated.Answer [] []).1).1.1.Perm
      (GoMap.keys (extract exSaturated.Answer [] []).1) ∧
    (∀ k ∈ addresses exSaturated.Answer,
      (getSortedHostsByLoad exEnvRev exLc (extract exSaturated.Answer [] []).1).1.1.count k = 1) ∧
    ∃ addrPart : List (Option RR),
      (WriteMsg exEnvRev exLc (some exSaturated)).writes =
        [some { MsgHdr := exSaturated.MsgHdr
                Answer := (others exSaturated.Answer).map some ++ addrPart }] ∧
      addrPart.Perm ((keepLast (aRecords exSaturated.Answer)).map (fun a => some (RR.A a))) :=
  ⟨exEnvRev_valid, exSaturated_ok, by decide,
    C6_saturated exEnvRev exLc exSaturated exEnvRev_valid exSaturated_ok (by decide)⟩

/-! ## C7: non-address records first -/

/-- C7 (as stated, refuted): when the store call fails for 10.0.0.9, the answer
`[10.0.0.2, CNAME, 10.0.0.9, 10.0.0.1]` is written as it is, so the non-address
record does not come first. -/
theorem C7_counterexample :
    exEnv.Valid ∧
    (WriteMsg exEnv exLc (some exFailing)).writes
      = [some { MsgHdr := "id 1"
                Answer := [some (RR.A (exA "10.0.0.2")), some (RR.other "cname"),
                  some (RR.A (exA "10.0.0.9")), some (RR.A (exA "10.0.0.1"))] }] ∧
    ¬ ∃ addrPart : List (Option RR),
      [some (RR.A (exA "10.0.0.2")), some (RR.other "cname"),
          some (RR.A (exA "10.0.0.9")), some (RR.A (exA "10.0.0.1"))]
        = (others exFailing.Answer).map some ++ addrPart ∧
      ∀ x ∈ addrPart, ∃ a, x = some (RR.A a) := by
  refine ⟨exEnv_valid, by decide, ?_⟩
  rintro ⟨addrPart, h, _⟩
  simp [exFailing, exMsg, others] at h

/-- C7 (amended): for every non-absent response message, `WriteMsg` writes one message.
When no lookup fails, its answer consists of all the input's non-address records first,
in their original relative order, followed only by address records. When a lookup
fails, its answer is the input answer unchanged. -/
theorem C7_others_first (env : Env) (lc : LoadAware) (res : Msg) (hv : env.Valid) :
    ∃ out, (WriteMsg env lc (some res)).writes = [some out] ∧
      ((∀ k ∈ addresses res.Answer, ¬ lookupFails env lc k) →
        ∃ addrPart : List (Option RR),
          out.Answer = (others res.Answer).map some ++ addrPart ∧
          ∀ x ∈ addrPart, ∃ a, x = some (RR.A a)) ∧
      ((∃ k ∈ addresses res.Answer, lookupFails env lc k) →
        out.Answer = res.Answer.map some) := by
  by_cases hf : ∃ k ∈ addresses res.Answer, lookupFails env lc k
  · refine ⟨res.toW, by rw [WriteMsg_err env lc res hv hf], ?_, fun _ => rfl⟩
    intro hn
    obtain ⟨k, hk, hkf⟩ := hf
    exact absurd hkf (hn k hk)
  · have hn : ∀ k ∈ addresses res.Answer, ¬ lookupFails env lc k :=
      fun k hk hkf => hf ⟨k, hk, hkf⟩
    obtain ⟨addrPart, hw, hp⟩ := written_ok env lc res hv hn
    refine ⟨_, hw, fun _ => ⟨addrPart, rfl, ?_⟩, fun h => absurd h hf⟩
    intro x hx
    obtain ⟨a, _, hax⟩ := List.mem_map.mp (hp.mem_iff.mp hx)
    exact ⟨a, hax.symm⟩

/-- C7, instance: threshold 10 and the answer `exMixed`. -/
theorem C7_others_first_witness :
    exEnv.Valid ∧
    ∃ out, (WriteMsg exEnv exLc (some exMixed)).writes = [some out] ∧
      ((∀ k ∈ addresses exMixed.Answer, ¬ lookupFails exEnv exLc k) →
        ∃ addrPart : List (Option RR),
          out.Answer = (others exMixed.Answer).map some ++ addrPart ∧
          ∀ x ∈ addrPart, ∃ a, x = some (RR.A a)) ∧
      ((∃ k ∈ addresses exMixed.Answer, lookupFails exEnv exLc k) →
        out.Answer = exMixed.Answer.map some) :=
  ⟨exEnv_valid, C7_others_first exEnv exLc exMixed exEnv_valid⟩

/-! ## C8: errors of the sorter -/

/-- An error of the sorter comes from the lookup loop. -/
theorem getSortedHostsByLoad_err_inv (env : Env) (lc : LoadAware) (ipMap : GoMap A)
    (h : (getSortedHostsByLoad env lc ipMap).1.2 ≠ none) :
    (lookupLoop env lc (env.rangeOrder 0 (GoMap.keys ipMap)) [] []).1.2 ≠ none := by
  unfold getSortedHostsByLoad at h
  rcases hl : lookupLoop env lc (env.rangeOrder 0 (GoMap.keys ipMap)) [] [] with ⟨⟨m, e⟩, log⟩
  rw [hl] at h
  cases e with
  | some e => simp
  | none =>
    exfalso
    apply h
    dsimp only
    split <;> rfl

/-- C8: `getSortedHostsByLoad` returns an error if and only if the lookup of at least
one candidate address yields a store error or a decode error; when it returns an error
it returns the nil list, and when no lookup fails it returns no error. -/
theorem C8_error_iff (env : Env) (lc : LoadAware) (ipMap : GoMap A) (hv : env.Valid) :
    ((getSortedHostsByLoad env lc ipMap).1.2 ≠ none ↔
      ∃ ip ∈ GoMap.keys ipMap, storeError env lc ip ∨ decodeError env lc ip) ∧
    ((getSortedHostsByLoad env lc ipMap).1.2 ≠ none →
      (getSortedHostsByLoad env lc ipMap).1.1 = []) ∧
    ((∀ ip ∈ GoMap.keys ipMap, ¬ (storeError env lc ip ∨ decodeError env lc ip)) →
      (getSortedHostsByLoad env lc ipMap).1.2 = none) := by
  have hiff : (getSortedHostsByLoad env lc ipMap).1.2 ≠ none ↔
      ∃ ip ∈ GoMap.keys ipMap, storeError env lc ip ∨ decodeError env lc ip := by
    constructor
    · intro h
      obtain ⟨k, hk, hf⟩ := lookupLoop_err_inv env lc _ [] []
        (getSortedHostsByLoad_err_inv env lc ipMap h)
      exact ⟨k, (hv.range_perm 0 _).mem_iff.mp hk, hf⟩
    · intro h
      obtain ⟨e, he⟩ := getSortedHostsByLoad_err env lc ipMap hv h
      rw [he]
      simp
  refine ⟨hiff, ?_, ?_⟩
  · intro h
    obtain ⟨e, he⟩ := getSortedHostsByLoad_err env lc ipMap hv (hiff.mp h)
    rw [he]
  · intro hn
    by_contra hc
    obtain ⟨ip, hip, hf⟩ := hiff.mp hc
    exact hn ip hip hf

/-- C8, instance: threshold 10 and the candidates of `exFailing`, one of which fails. -/
theorem C8_error_iff_witness :
    exEnv.Valid ∧
    ((getSortedHostsByLoad exEnv exLc (extract exFailing.Answer [] []).1).1.2 ≠ none ↔
      ∃ ip ∈ GoMap.keys (extract exFailing.Answer [] []).1,
        storeError exEnv exLc ip ∨ decodeError exEnv exLc ip) ∧
    ((getSortedHostsByLoad exEnv exLc (extract exFailing.Answer [] []).1).1.2 ≠ none →
      (getSortedHostsByLoad exEnv exLc (extract exFailing.Answer [] []).1).1.1 = []) ∧
    ((∀ ip ∈ GoMap.keys (extract exFailing.Answer [] []).1,
        ¬ (storeError exEnv exLc ip ∨ decodeError exEnv exLc ip)) →
      (getSortedHostsByLoad exEnv exLc (extract exFailing.Answer [] []).1).1.2 = none) :=
  ⟨exEnv_valid, C8_error_iff exEnv exLc (extract exFailing.Answer [] []).1 exEnv_valid⟩

/-! ## C9: addresses without an entry in the store -/

/-- C9 (as stated, refuted): with threshold 0, the candidate 10.0.0.3 has no entry in
the store (count 0, no error) and the candidate 10.0.0.4 has count -1; no lookup
fails, and `getSortedHostsByLoad` returns `[10.0.0.4]`, without 10.0.0.3. -/
theorem C9_counterexample :
    exEnv.Valid ∧
    (GoMap.keys exNegative).Nodup ∧
    (getConnectionCountForIP exEnv exLcZero "10.0.0.3").2 = none ∧
    (getConnectionCountForIP exEnv exLcZero "10.0.0.4").2 = none ∧
    notFound exEnv exLcZero "10.0.0.3" ∧
    "10.0.0.3" ∈ GoMap.keys exNegative ∧
    (getSortedHostsByLoad exEnv exLcZero exNegative).1 = (["10.0.0.4"], none) ∧
    "10.0.0.3" ∉ (getSortedHostsByLoad exEnv exLcZero exNegative).1.1 :=
  ⟨exEnv_valid, by decide, by decide, by decide, by unfold notFound; decide, by decide,
    by decide, by decide⟩

/-- C9 (amended): an address for which the store returns not-found is given observed
count 0 with no error, for every threshold. For every candidate map (distinct keys),
every threshold and every error-free store, such an address, when a candidate, is a
member of the list returned by `getSortedHostsByLoad` exactly when the threshold is
greater than 0 or no candidate has an observed count below the threshold; in particular
it is never excluded when the threshold is greater than 0. -/
theorem C9_not_found (env : Env) (lc : LoadAware) (ipMap : GoMap A) (ip : String)
    (hnf : notFound env lc ip) :
    getConnectionCountForIP env lc ip = (0, none) ∧
    (env.Valid → (GoMap.keys ipMap).Nodup →
      (∀ k ∈ GoMap.keys ipMap, ¬ lookupFails env lc k) → ip ∈ GoMap.keys ipMap →
      (getSortedHostsByLoad env lc ipMap).1.2 = none ∧
      (ip ∈ (getSortedHostsByLoad env lc ipMap).1.1 ↔
        (0 < lc.LoadThreshold ∨
          ∀ k ∈ GoMap.keys ipMap, lc.LoadThreshold ≤ observedCount env lc k))) := by
  have hg : getConnectionCountForIP env lc ip = (0, none) := by
    unfold notFound at hnf
    unfold getConnectionCountForIP
    rcases hh : env.HGet lc.RedisKey ip with ⟨d, e⟩
    rw [hh] at hnf
    simp only at hnf
    subst hnf
    simp
  refine ⟨hg, ?_⟩
  intro hv hnd hok hip
  obtain ⟨h1, _, h3, h4⟩ := getSortedHostsByLoad_ok env lc ipMap hv hnd hok
  have he : eligible env lc ip = true ↔ 0 < lc.LoadThreshold := by
    simp only [eligible, observedCount, hg, decide_eq_true_eq]
  refine ⟨h1, ?_⟩
  by_cases hany : ∃ k ∈ GoMap.keys ipMap, eligible env lc k = true
  · have hp := (h4 hany).1
    constructor
    · intro hin
      exact Or.inl (he.mp (List.mem_filter.mp (hp.mem_iff.mp hin)).2)
    · rintro (hpos | hsat)
      · exact hp.mem_iff.mpr (List.mem_filter.mpr ⟨hip, he.mpr hpos⟩)
      · obtain ⟨k, hk, hke⟩ := hany
        have := hsat k hk
        simp only [eligible, decide_eq_true_eq] at hke
        omega
  · have hnone : ∀ k ∈ GoMap.keys ipMap, eligible env lc k = false := by
      intro k hk
      cases hek : eligible env lc k
      · rfl
      · exact absurd ⟨k, hk, hek⟩ hany
    have hp := h3 hnone
    constructor
    · intro _
      right
      intro k hk
      have := hnone k hk
      simp only [eligible, decide_eq_false_iff_not] at this
      omega
    · intro _
      exact hp.mem_iff.mpr hip

/-- C9, instance: threshold 10, the candidates 10.0.0.1, 10.0.0.2, 10.0.0.3, the last
without an entry in the store. -/
theorem C9_not_found_witness :
    notFound exEnv exLc "10.0.0.3" ∧
    exEnv.Valid ∧
    (GoMap.keys (extract exScenario.Answer [] []).1).Nodup ∧
    (∀ k ∈ GoMap.keys (extract exScenario.Answer [] []).1, ¬ lookupFails exEnv exLc k) ∧
    "10.0.0.3" ∈ GoMap.keys (extract exScenario.Answer [] []).1 ∧
    getConnectionCountForIP exEnv exLc "10.0.0.3" = (0, none) ∧
    (getSortedHostsByLoad exEnv exLc (extract exScenario.Answer [] []).1).1.2 = none ∧
    ("10.0.0.3" ∈ (getSortedHostsByLoad exEnv exLc (extract exScenario.Answer [] []).1).1.1 ↔
      (0 < exLc.LoadThreshold ∨
        ∀ k ∈ GoMap.keys (extract exScenario.Answer [] []).1,
          exLc.LoadThreshold ≤ observedCount exEnv exLc k)) :=
  ⟨by unfold notFound; decide, exEnv_valid, by decide, exScenario_keys_ok, by decide,
    (C9_not_found exEnv exLc (extract exScenario.Answer [] []).1 "10.0.0.3"
      (by unfold notFound; decide)).1,
    (C9_not_found exEnv exLc (extract exScenario.Answer [] []).1 "10.0.0.3"
      (by unfold notFound; decide)).2 exEnv_valid (by decide) exScenario_keys_ok (by decide)⟩

/-! ## C10: addresses with equal counts -/

theorem exTie_ok : ∀ k ∈ addresses exTie.Answer, ¬ lookupFails exEnvRev exLc k := by
  intro k hk
  apply not_lookupFails_of
  have hk2 : k = "10.0.0.6" ∨ k = "10.0.0.7" := by
    simpa [addresses, exTie, exMsg, aRecords, exA] using hk
  rcases hk2 with h | h <;> subst h <;> decide

/-- C10 (as stated, refuted): with threshold 10 and the answer `[10.0.0.6, 10.0.0.7]`,
both with count 3, a `range` over the map of counts that visits 10.0.0.7 first makes
`WriteMsg` write `[10.0.0.7, 10.0.0.6]`, although the sort itself moves nothing: the two
records do not keep their input order. -/
theorem C10_counterexample :
    exEnvRev.Valid ∧
    (addresses exTie.Answer).Nodup ∧
    (∀ k ∈ addresses exTie.Answer, ¬ lookupFails exEnvRev exLc k) ∧
    observedCount exEnvRev exLc "10.0.0.6" < exLc.LoadThreshold ∧
    observedCount exEnvRev exLc "10.0.0.7" < exLc.LoadThreshold ∧
    observedCount exEnvRev exLc "10.0.0.6" = observedCount exEnvRev exLc "10.0.0.7" ∧
    List.Sublist [RR.A (exA "10.0.0.6"), RR.A (exA "10.0.0.7")] exTie.Answer ∧
    (WriteMsg exEnvRev exLc (some exTie)).writes
      = [some { MsgHdr := "id 1"
                Answer := [some (RR.A (exA "10.0.0.7")), some (RR.A (exA "10.0.0.6"))] }] ∧
    ¬ List.Sublist [some (RR.A (exA "10.0.0.6")), some (RR.A (exA "10.0.0.7"))]
      [some (RR.A (exA "10.0.0.7")), some (RR.A (exA "10.0.0.6"))] :=
  ⟨exEnvRev_valid, by decide, exTie_ok, by decide, by decide, by decide, by decide, by decide,
    by decide⟩

/-- C10 (amended): for every response with pairwise distinct addresses and an
error-free store, two eligible addresses with equal observed count are both written,
each exactly once; the code does not fix their relative order. -/
theorem C10_ties_written (env : Env) (lc : LoadAware) (res : Msg) (hv : env.Valid)
    (hnd : (addresses res.Answer).Nodup)
    (hok : ∀ k ∈ addresses res.Answer, ¬ lookupFails env lc k)
    (a b : A) (ha : a ∈ aRecords res.Answer) (hb : b ∈ aRecords res.Answer)
    (hea : observedCount env lc a.A < lc.LoadThreshold)
    (heb : observedCount env lc b.A < lc.LoadThreshold)
    (_htie : observedCount env lc a.A = observedCount env lc b.A) :
    ∃ out, (WriteMsg env lc (some res)).writes = [some out] ∧
      Multiset.count (some (RR.A a)) (Multiset.ofList out.Answer) = 1 ∧
      Multiset.count (some (RR.A b)) (Multiset.ofList out.Answer) = 1 := by
  have hsel : ∀ c : A, c ∈ aRecords res.Answer →
      observedCount env lc c.A < lc.LoadThreshold →
      selected env lc (addresses res.Answer) c.A = true := by
    intro c _ hc
    simp only [selected, eligible]
    split
    · simpa using hc
    · rfl
  obtain ⟨out, hw, hca⟩ := count_written env lc res hv hnd hok a ha
  obtain ⟨out2, hw2, hcb⟩ := count_written env lc res hv hnd hok b hb
  rw [hw] at hw2
  have hout := Option.some.inj (List.cons.inj hw2).1
  rw [← hout] at hcb
  rw [if_pos (hsel a ha hea)] at hca
  rw [if_pos (hsel b hb heb)] at hcb
  exact ⟨out, hw, hca, hcb⟩

/-- C10, instance: threshold 10 and the answer `[10.0.0.6, 10.0.0.7]`, both with count 3. -/
theorem C10_ties_written_witness :
    exEnvRev.Valid ∧
    (addresses exTie.Answer).Nodup ∧
    (∀ k ∈ addresses exTie.Answer, ¬ lookupFails exEnvRev exLc k) ∧
    exA "10.0.0.6" ∈ aRecords exTie.Answer ∧
    exA "10.0.0.7" ∈ aRecords exTie.Answer ∧
    observedCount exEnvRev exLc (exA "10.0.0.6").A < exLc.LoadThreshold ∧
    observedCount exEnvRev exLc (exA "10.0.0.7").A < exLc.LoadThreshold ∧
    observedCount exEnvRev exLc (exA "10.0.0.6").A
      = observedCount exEnvRev exLc (exA "10.0.0.7").A ∧
    ∃ out, (WriteMsg exEnvRev exLc (some exTie)).writes = [some out] ∧
      Multiset.count (some (RR.A (exA "10.0.0.6"))) (Multiset.ofList out.Answer) = 1 ∧
      Multiset.count (some (RR.A (exA "10.0.0.7"))) (Multiset.ofList out.Answer) = 1 :=
  ⟨exEnvRev_valid, by decide, exTie_ok, by decide, by decide, by decide, by decide, by decide,
    C10_ties_written exEnvRev exLc exTie exEnvRev_valid (by decide) exTie_ok
      (exA "10.0.0.6") (exA "10.0.0.7") (by decide) (by decide) (by decide) (by decide)
      (by decide)⟩

/-! ## C12, C13: writes to the sink -/

/-- C12: every invocation of `WriteMsg` performs exactly one write to the underlying
sink and returns the result of that write, on each of its paths: for an absent
message the write is of the absent message, on a sorter failure it is of the message
as received, on sorter success it is of the rebuilt message. -/
theorem C12_one_write (env : Env) (lc : LoadAware) (res : Option Msg) :
    ∃ w, (WriteMsg env lc res).writes = [w] ∧
      (WriteMsg env lc res).ret = env.sinkWriteMsg w ∧
      (res = none → w = none) ∧
      (∀ r, res = some r →
        (getSortedHostsByLoad env lc (extract r.Answer [] []).1).1.2 ≠ none →
        w = some r.toW) ∧
      (∀ r, res = some r →
        (getSortedHostsByLoad env lc (extract r.Answer [] []).1).1.2 = none →
        w = some
          { MsgHdr := r.MsgHdr
            Answer := (extract r.Answer [] []).2.map some ++
              (getSortedHostsByLoad env lc (extract r.Answer [] []).1).1.1.map
                (fun ip => (GoMap.get (extract r.Answer [] []).1 ip).map RR.A) }) := by
  cases res with
  | none =>
    refine ⟨none, rfl, rfl, fun _ => rfl, ?_, ?_⟩
    · intro r hr; cases hr
    · intro r hr; cases hr
  | some res =>
    unfold WriteMsg
    rcases hx : extract res.Answer [] [] with ⟨ipMap, otherRecords⟩
    rcases hg : getSortedHostsByLoad env lc ipMap with ⟨⟨l, e⟩, log⟩
    cases e with
    | some e =>
      simp only [hx, hg]
      refine ⟨_, rfl, rfl, ?_, ?_, ?_⟩
      · intro h; cases h
      · intro r hr _
        cases hr
        rfl
      · intro r hr hnone
        cases hr
        rw [hx] at hnone
        simp only [hg] at hnone
        cases hnone
    | none =>
      simp only [hx, hg]
      refine ⟨_, rfl, rfl, ?_, ?_, ?_⟩
      · intro h; cases h
      · intro r hr hne
        cases hr
        rw [hx] at hne
        simp only [hg] at hne
        exact absurd rfl hne
      · intro r hr _
        cases hr
        simp only [hx, hg]

/-- C13: when the response message given to `WriteMsg` is absent, the absent message
is what is written to the sink (once), no store lookup is performed, and the value
returned is the one the sink returned for that write. -/
theorem C13_absent_message (env : Env) (lc : LoadAware) :
    (WriteMsg env lc none).writes = [none] ∧
    (WriteMsg env lc none).lookups = [] ∧
    (WriteMsg env lc none).ret = env.sinkWriteMsg none :=
  ⟨rfl, rfl, rfl⟩

/-! ## C14: the sorter returns keys of the map -/

theorem GoMap.get_isSome_of_mem {V : Type} (m : GoMap V) (k : String)
    (h : k ∈ GoMap.keys m) : (GoMap.get m k).isSome = true := by
  induction m with
  | nil => simp [GoMap.keys] at h
  | cons p m ih =>
    obtain ⟨k0, v0⟩ := p
    by_cases hk : k0 = k
    · simp [GoMap.get, hk]
    · simp only [GoMap.get, hk, if_false]
      apply ih
      simp only [GoMap.keys, List.map_cons, List.mem_cons] at h
      rcases h with h | h
      · exact absurd h.symm hk
      · simpa [GoMap.keys] using h

/-- A list returned without error holds keys of the map, none of them twice. -/
theorem getSortedHostsByLoad_keys (env : Env) (lc : LoadAware) (ipMap : GoMap A)
    (hv : env.Valid) (hnd : (GoMap.keys ipMap).Nodup)
    (hnone : (getSortedHostsByLoad env lc ipMap).1.2 = none) :
    (getSortedHostsByLoad env lc ipMap).1.1.Nodup ∧
    ∀ ip ∈ (getSortedHostsByLoad env lc ipMap).1.1, ip ∈ GoMap.keys ipMap := by
  have hok : ∀ k ∈ GoMap.keys ipMap, ¬ lookupFails env lc k := by
    intro k hk hf
    obtain ⟨e, he⟩ := getSortedHostsByLoad_err env lc ipMap hv ⟨k, hk, hf⟩
    rw [he] at hnone
    cases hnone
  obtain ⟨_, _, h3, h4⟩ := getSortedHostsByLoad_ok env lc ipMap hv hnd hok
  by_cases hany : ∃ k ∈ GoMap.keys ipMap, eligible env lc k = true
  · have hp := (h4 hany).1
    exact ⟨hp.nodup_iff.mpr (hnd.filter _),
      fun ip hip => (List.mem_filter.mp (hp.mem_iff.mp hip)).1⟩
  · have hnoel : ∀ k ∈ GoMap.keys ipMap, eligible env lc k = false := by
      intro k hk
      cases hek : eligible env lc k
      · rfl
      · exact absurd ⟨k, hk, hek⟩ hany
    have hp := h3 hnoel
    exact ⟨hp.nodup_iff.mpr hnd, fun ip hip => hp.mem_iff.mp hip⟩

/-- C14: for every candidate map (distinct keys) and every store, whenever
`getSortedHostsByLoad` returns a list without error, every element of that list is a
key of the candidate map and no element occurs twice, so reading the map at it finds a
record; and for every non-absent message the answer `WriteMsg` writes contains no
absent (nil) record. -/
theorem C14_no_nil_record (env : Env) (lc : LoadAware) (hv : env.Valid) :
    (∀ ipMap : GoMap A, (GoMap.keys ipMap).Nodup →
      (getSortedHostsByLoad env lc ipMap).1.2 = none →
      (getSortedHostsByLoad env lc ipMap).1.1.Nodup ∧
      ∀ ip ∈ (getSortedHostsByLoad env lc ipMap).1.1,
        ip ∈ GoMap.keys ipMap ∧ (GoMap.get ipMap ip).isSome = true) ∧
    (∀ res : Msg, ∃ out, (WriteMsg env lc (some res)).writes = [some out] ∧
      none ∉ out.Answer) := by
  constructor
  · intro ipMap hnd hnone
    obtain ⟨h1, h2⟩ := getSortedHostsByLoad_keys env lc ipMap hv hnd hnone
    exact ⟨h1, fun ip hip => ⟨h2 ip hip, GoMap.get_isSome_of_mem ipMap ip (h2 ip hip)⟩⟩
  · intro res
    by_cases hf : ∃ k ∈ addresses res.Answer, lookupFails env lc k
    · refine ⟨res.toW, by rw [WriteMsg_err env lc res hv hf], ?_⟩
      simp [Msg.toW]
    · have hn : ∀ k ∈ addresses res.Answer, ¬ lookupFails env lc k :=
        fun k hk hkf => hf ⟨k, hk, hkf⟩
      obtain ⟨addrPart, hw, hp⟩ := written_ok env lc res hv hn
      refine ⟨_, hw, ?_⟩
      intro hmem
      rcases List.mem_append.mp hmem with h | h
      · simp at h
      · have := hp.mem_iff.mp h
        simp at this

/-- C14, instance: threshold 10, the candidates and the answer of `exScenario`. -/
theorem C14_no_nil_record_witness :
    exEnv.Valid ∧
    (GoMap.keys (extract exScenario.Answer [] []).1).Nodup ∧
    (getSortedHostsByLoad exEnv exLc (extract exScenario.Answer [] []).1).1.2 = none ∧
    ((getSortedHostsByLoad exEnv exLc (extract exScenario.Answer [] []).1).1.1.Nodup ∧
      ∀ ip ∈ (getSortedHostsByLoad exEnv exLc (extract exScenario.Answer [] []).1).1.1,
        ip ∈ GoMap.keys (extract exScenario.Answer [] []).1 ∧
        (GoMap.get (extract exScenario.Answer [] []).1 ip).isSome = true) ∧
    (∃ out, (WriteMsg exEnv exLc (some exScenario)).writes = [some out] ∧
      none ∉ out.Answer) :=
  ⟨exEnv_valid, by decide, by decide,
    (C14_no_nil_record exEnv exLc exEnv_valid).1 (extract exScenario.Answer [] []).1
      (by decide) (by decide),
    (C14_no_nil_record exEnv exLc exEnv_valid).2 exScenario⟩

/-! ## C15: the written answer within the input answer -/

/-- C15: for every non-absent response message and every store behaviour, the answer
written by `WriteMsg` is a sub-multiset of the input answer: every written record is a
record of the input, no record occurs more often than in the input, and the written
answer is not longer than the input answer. -/
theorem C15_sub_multiset (env : Env) (lc : LoadAware) (res : Msg) (hv : env.Valid) :
    ∃ out, (WriteMsg env lc (some res)).writes = [some out] ∧
      Multiset.ofList out.Answer ≤ Multiset.ofList (res.Answer.map some) ∧
      (∀ x ∈ out.Answer, x ∈ res.Answer.map some) ∧
      (∀ x, Multiset.count x (Multiset.ofList out.Answer)
        ≤ Multiset.count x (Multiset.ofList (res.Answer.map some))) ∧
      out.Answer.length ≤ res.Answer.length := by
  have key : ∃ out, (WriteMsg env lc (some res)).writes = [some out] ∧
      Multiset.ofList out.Answer ≤ Multiset.ofList (res.Answer.map some) := by
    by_cases hf : ∃ k ∈ addresses res.Answer, lookupFails env lc k
    · exact ⟨res.toW, by rw [WriteMsg_err env lc res hv hf], le_refl _⟩
    · have hn : ∀ k ∈ addresses res.Answer, ¬ lookupFails env lc k :=
        fun k hk hkf => hf ⟨k, hk, hkf⟩
      obtain ⟨addrPart, hw, hp⟩ := written_ok env lc res hv hn
      refine ⟨_, hw, ?_⟩
      rw [Multiset.coe_le]
      have hsub : (((keepLast (aRecords res.Answer)).filter
          (fun a => selected env lc (addresses res.Answer) a.A)).map
            (fun a => some (RR.A a))).Sublist
          ((aRecords res.Answer).map (fun a => some (RR.A a))) :=
        ((List.filter_sublist _).trans (keepLast_sublist _)).map _
      have h1 : ((others res.Answer).map some ++ addrPart).Perm
          ((others res.Answer).map some ++ ((keepLast (aRecords res.Answer)).filter
            (fun a => selected env lc (addresses res.Answer) a.A)).map
              (fun a => some (RR.A a))) := List.Perm.append_left _ hp
      have h2 : ((others res.Answer).map some ++ ((keepLast (aRecords res.Answer)).filter
            (fun a => selected env lc (addresses res.Answer) a.A)).map
              (fun a => some (RR.A a))).Sublist
          ((others res.Answer).map some ++
            (aRecords res.Answer).map (fun a => some (RR.A a))) :=
        List.Sublist.append (List.Sublist.refl _) hsub
      have h3 : ((others res.Answer).map some ++
            (aRecords res.Answer).map (fun a => some (RR.A a))).Perm
          (res.Answer.map some) := by
        have := (others_aRecords_perm res.Answer).map some
        simpa [List.map_append, List.map_map, Function.comp_def] using this
      exact (h1.subperm.trans h2.subperm).trans h3.subperm
  obtain ⟨out, hw, hle⟩ := key
  refine ⟨out, hw, hle, ?_, ?_, ?_⟩
  · intro x hx
    have := Multiset.subset_of_le hle (Multiset.mem_coe.mpr hx)
    exact Multiset.mem_coe.mp this
  · intro x
    exact Multiset.count_le_of_le x hle
  · have := Multiset.card_le_card hle
    simpa using this

/-- C15, instance: threshold 10 and the answer `exMixed`. -/
theorem C15_sub_multiset_witness :
    exEnv.Valid ∧
    ∃ out, (WriteMsg exEnv exLc (some exMixed)).writes = [some out] ∧
      Multiset.ofList out.Answer ≤ Multiset.ofList (exMixed.Answer.map some) ∧
      (∀ x ∈ out.Answer, x ∈ exMixed.Answer.map some) ∧
      (∀ x, Multiset.count x (Multiset.ofList out.Answer)
        ≤ Multiset.count x (Multiset.ofList (exMixed.Answer.map some))) ∧
      out.Answer.length ≤ exMixed.Answer.length :=
  ⟨exEnv_valid, C15_sub_multiset exEnv exLc exMixed exEnv_valid⟩

/-! ## C11: several records with the same address -/

theorem GoMap.get_set {V : Type} (m : GoMap V) (k : String) (v : V) (k2 : String) :
    GoMap.get (GoMap.set m k v) k2 = if k = k2 then some v else GoMap.get m k2 := by
  induction m with
  | nil => simp [GoMap.set, GoMap.get]
  | cons p m ih =>
    obtain ⟨k0, v0⟩ := p
    by_cases hk : k0 = k
    · subst hk
      simp only [GoMap.set, if_true, GoMap.get]
      split <;> rfl
    · simp only [GoMap.set, hk, if_false, GoMap.get, ih]
      by_cases h0 : k0 = k2
      · have hne : ¬ k = k2 := fun e => hk (h0.trans e.symm)
        simp [h0, hne]
      · simp [h0]

/-- Reading the map after storing records one by one: the last record stored with
that address, else what the map held before. -/
theorem get_foldl_set (as : List A) (m : GoMap A) (k : String) :
    GoMap.get (as.foldl (fun m a => GoMap.set m a.A a) m) k
      = (as.reverse.find? (fun a => decide (a.A = k))).or (GoMap.get m k) := by
  induction as generalizing m with
  | nil => simp
  | cons a rest ih =>
    simp only [List.foldl_cons, ih, GoMap.get_set, List.reverse_cons, List.find?_append]
    cases hfind : rest.reverse.find? (fun a => decide (a.A = k)) with
    | some x => simp
    | none =>
      by_cases hak : a.A = k
      · simp [hak]
      · simp [hak]

theorem get_extract (l : List RR) (k : String) :
    GoMap.get (extract l [] []).1 k = lastRecord l k := by
  rw [extract_eq]
  simp only [get_foldl_set, lastRecord, GoMap.get, Option.or_none]

theorem filter_addr_length_le_one (L : List A) (k : String) (h : (L.map A.A).Nodup) :
    (L.filter (fun a => decide (a.A = k))).length ≤ 1 := by
  induction L with
  | nil => simp
  | cons a rest ih =>
    simp only [List.map_cons, List.nodup_cons] at h
    by_cases hak : a.A = k
    · have hnil : rest.filter (fun a => decide (a.A = k)) = [] := by
        rw [List.filter_eq_nil_iff]
        intro b hb
        have : b.A ≠ k := by
          intro e
          apply h.1
          rw [hak, ← e]
          exact List.mem_map.mpr ⟨b, hb, rfl⟩
        simpa using this
      simp [List.filter_cons, hak, hnil]
    · simp only [List.filter_cons, hak, decide_False, Bool.false_eq_true, if_false]
      exact ih h.2

theorem nodup_keepLast_addr (l : List RR) : ((keepLast (aRecords l)).map A.A).Nodup :=
  (keys_extract_perm l).nodup_iff.mp (extract_ipMap l).1

theorem filter_hasAddress_others (l : List RR) (k : String) :
    ((others l).map some).filter (hasAddress k) = [] := by
  rw [List.filter_eq_nil_iff]
  intro x hx
  obtain ⟨r, hr, hrx⟩ := List.mem_map.mp hx
  subst hrx
  cases r with
  | A a => exact absurd hr (not_mem_others l a)
  | other rr => simp [hasAddress]

/-- C11: for every answer, also one in which two or more address records carry the
same address, the partition step of `WriteMsg` keeps for each address the record that
occurs last in the input answer, and keeps every non-address record; the repetition is
not an error: when no lookup fails the sorter returns no error and the rebuilt answer
is written, and it contains at most one record for each address, which is that last
record. -/
theorem C11_last_write_wins (env : Env) (lc : LoadAware) (res : Msg) :
    (∀ k, GoMap.get (extract res.Answer [] []).1 k = lastRecord res.Answer k) ∧
    (extract res.Answer [] []).2 = others res.Answer ∧
    (env.Valid → (∀ k ∈ addresses res.Answer, ¬ lookupFails env lc k) →
      (getSortedHostsByLoad env lc (extract res.Answer [] []).1).1.2 = none ∧
      ∃ out, (WriteMsg env lc (some res)).writes = [some out] ∧
        (∀ k, (out.Answer.filter (hasAddress k)).length ≤ 1) ∧
        (∀ a, some (RR.A a) ∈ out.Answer → lastRecord res.Answer a.A = some a)) := by
  refine ⟨get_extract res.Answer, extract_others res.Answer, ?_⟩
  intro hv hok
  have hk : ∀ k ∈ GoMap.keys (extract res.Answer [] []).1, ¬ lookupFails env lc k :=
    fun k hk => hok k ((mem_keys_extract _ k).mp hk)
  obtain ⟨hnd, hperm⟩ := extract_ipMap res.Answer
  obtain ⟨h1, _, _, _⟩ := getSortedHostsByLoad_ok env lc _ hv hnd hk
  obtain ⟨addrPart, hw, hp⟩ := written_ok env lc res hv hok
  refine ⟨h1, _, hw, ?_, ?_⟩
  · intro k
    rw [List.filter_append, filter_hasAddress_others, List.nil_append,
      (hp.filter (hasAddress k)).length_eq, List.filter_map, List.length_map]
    have hsub : (((keepLast (aRecords res.Answer)).filter
        (fun a => selected env lc (addresses res.Answer) a.A)).map A.A).Nodup :=
      (nodup_keepLast_addr res.Answer).sublist ((List.filter_sublist _).map _)
    exact filter_addr_length_le_one _ k hsub
  · intro a ha
    have ha2 : some (RR.A a) ∈ addrPart := by
      rcases List.mem_append.mp ha with h | h
      · obtain ⟨r, hr, hrx⟩ := List.mem_map.mp h
        have hra : r = RR.A a := Option.some.inj hrx
        rw [hra] at hr
        exact absurd hr (not_mem_others _ a)
      · exact h
    obtain ⟨b, hb, hba⟩ := List.mem_map.mp (hp.mem_iff.mp ha2)
    have hab : b = a := by
      have := Option.some.inj hba
      cases this
      rfl
    subst hab
    have hmem : (b.A, b) ∈ (extract res.Answer [] []).1 :=
      hperm.mem_iff.mpr (List.mem_map.mpr ⟨b, (List.mem_filter.mp hb).1, rfl⟩)
    rw [← get_extract]
    exact GoMap.get_of_mem _ b.A b hnd hmem

theorem exDup_ok : ∀ k ∈ addresses exDup.Answer, ¬ lookupFails exEnv exLc k := by
  intro k hk
  apply not_lookupFails_of
  have hk2 : k = "10.0.0.1" ∨ k = "10.0.0.3" := by
    simpa [addresses, exDup, exMsg, aRecords, exA] using hk
  rcases hk2 with h | h <;> subst h <;> decide

/-- C11, instance: threshold 10 and the answer `exDup`, where 10.0.0.1 occurs twice. -/
theorem C11_last_write_wins_witness :
    exEnv.Valid ∧
    (∀ k ∈ addresses exDup.Answer, ¬ lookupFails exEnv exLc k) ∧
    (∀ k, GoMap.get (extract exDup.Answer [] []).1 k = lastRecord exDup.Answer k) ∧
    (extract exDup.Answer [] []).2 = others exDup.Answer ∧
    (getSortedHostsByLoad exEnv exLc (extract exDup.Answer [] []).1).1.2 = none ∧
    ∃ out, (WriteMsg exEnv exLc (some exDup)).writes = [some out] ∧
      (∀ k, (out.Answer.filter (hasAddress k)).length ≤ 1) ∧
      (∀ a, some (RR.A a) ∈ out.Answer → lastRecord exDup.Answer a.A = some a) :=
  ⟨exEnv_valid, exDup_ok, (C11_last_write_wins exEnv exLc exDup).1,
    (C11_last_write_wins exEnv exLc exDup).2.1,
    (C11_last_write_wins exEnv exLc exDup).2.2 exEnv_valid exDup_ok⟩

/-! ## C16: what the returned list depends on -/

theorem getConnectionCountForIP_congr (env1 env2 : Env) (lc : LoadAware) (ip : String)
    (hH : env1.HGet = env2.HGet) (hU : env1.Unmarshal = env2.Unmarshal) :
    getConnectionCountForIP env1 lc ip = getConnectionCountForIP env2 lc ip := by
  unfold getConnectionCountForIP
  rw [hH, hU]

/-- With distinct counts among the eligible keys, an ascending list of distinct
eligible keys is strictly ascending. -/
theorem strictly_ascending (f : String → Int) (p : String → Prop) (l : List String)
    (hnd : l.Nodup) (hp : ∀ a ∈ l, p a)
    (hdist : ∀ a b, p a → p b → f a = f b → a = b)
    (hs : l.Pairwise (fun a b => f a ≤ f b)) :
    l.Pairwise (fun a b => f a < f b) := by
  have hboth := hs.and hnd
  refine List.Pairwise.imp_of_mem ?_ hboth
  intro a b ha hb hab
  obtain ⟨hle, hne⟩ := hab
  have hfne : f a ≠ f b := fun e => hne (hdist a b (hp a ha) (hp b hb) e)
  omega

/-- C16 (as stated, refuted): with threshold 10 and the candidates 10.0.0.2 and
10.0.0.5, both with count 15, no address is eligible (so the eligible addresses have
pairwise distinct counts), the store is the same and error-free, and yet two map
iteration orders give the lists `[10.0.0.2, 10.0.0.5]` and `[10.0.0.5, 10.0.0.2]`. -/
theorem C16_counterexample :
    exEnv.Valid ∧ exEnvRev.Valid ∧
    exEnv.HGet = exEnvRev.HGet ∧ exEnv.Unmarshal = exEnvRev.Unmarshal ∧
    (GoMap.keys (extract exSaturated.Answer [] []).1).Nodup ∧
    (∀ k ∈ GoMap.keys (extract exSaturated.Answer [] []).1,
      (getConnectionCountForIP exEnv exLc k).2 = none) ∧
    (∀ a ∈ GoMap.keys (extract exSaturated.Answer [] []).1,
      ∀ b ∈ GoMap.keys (extract exSaturated.Answer [] []).1,
      observedCount exEnv exLc a < exLc.LoadThreshold →
      observedCount exEnv exLc b < exLc.LoadThreshold →
      observedCount exEnv exLc a = observedCount exEnv exLc b → a = b) ∧
    (getSortedHostsByLoad exEnv exLc (extract exSaturated.Answer [] []).1).1
      = (["10.0.0.2", "10.0.0.5"], none) ∧
    (getSortedHostsByLoad exEnvRev exLc (extract exSaturated.Answer [] []).1).1
      = (["10.0.0.5", "10.0.0.2"], none) ∧
    (getSortedHostsByLoad exEnv exLc (extract exSaturated.Answer [] []).1).1
      ≠ (getSortedHostsByLoad exEnvRev exLc (extract exSaturated.Answer [] []).1).1 :=
  ⟨exEnv_valid, exEnvRev_valid, rfl, rfl, by decide, by decide, by decide, by decide,
    by decide, by decide⟩

/-- C16 (amended): for every candidate set and error-free store in which at least one
candidate is eligible and the eligible candidates have pairwise distinct observed
counts, the result of `getSortedHostsByLoad` is determined by the candidate set, the
counts and the threshold: two runs on the same candidates and the same store return
the same list, whatever the map iteration orders and whatever `sort.Slice` does. -/
theorem C16_determined (env1 env2 : Env) (lc : LoadAware) (ipMap1 ipMap2 : GoMap A)
    (hv1 : env1.Valid) (hv2 : env2.Valid)
    (hH : env1.HGet = env2.HGet) (hU : env1.Unmarshal = env2.Unmarshal)
    (hnd : (GoMap.keys ipMap1).Nodup)
    (hkeys : (GoMap.keys ipMap1).Perm (GoMap.keys ipMap2))
    (hok : ∀ k ∈ GoMap.keys ipMap1, ¬ lookupFails env1 lc k)
    (hel : ∃ k ∈ GoMap.keys ipMap1, observedCount env1 lc k < lc.LoadThreshold)
    (hdist : ∀ a ∈ GoMap.keys ipMap1, ∀ b ∈ GoMap.keys ipMap1,
      observedCount env1 lc a < lc.LoadThreshold →
      observedCount env1 lc b < lc.LoadThreshold →
      observedCount env1 lc a = observedCount env1 lc b → a = b) :
    (getSortedHostsByLoad env1 lc ipMap1).1 = (getSortedHostsByLoad env2 lc ipMap2).1 := by
  have hg : ∀ ip, getConnectionCountForIP env1 lc ip = getConnectionCountForIP env2 lc ip :=
    fun ip => getConnectionCountForIP_congr env1 env2 lc ip hH hU
  have hobs : ∀ ip, observedCount env2 lc ip = observedCount env1 lc ip := by
    intro ip; unfold observedCount; rw [hg]
  have helig : eligible env2 lc = eligible env1 lc := by
    funext ip; unfold eligible; rw [hobs]
  have hnd2 : (GoMap.keys ipMap2).Nodup := hkeys.nodup_iff.mp hnd
  have hok2 : ∀ k ∈ GoMap.keys ipMap2, ¬ lookupFails env2 lc k := by
    intro k hk hf
    apply hok k (hkeys.mem_iff.mpr hk)
    apply (getConnectionCountForIP_err_iff env1 lc k).mp
    rw [hg]
    exact (getConnectionCountForIP_err_iff env2 lc k).mpr hf
  obtain ⟨e1, _, _, h14⟩ := getSortedHostsByLoad_ok env1 lc ipMap1 hv1 hnd hok
  obtain ⟨e2, _, _, h24⟩ := getSortedHostsByLoad_ok env2 lc ipMap2 hv2 hnd2 hok2
  obtain ⟨k, hk, hlt⟩ := hel
  have hel1 : ∃ k ∈ GoMap.keys ipMap1, eligible env1 lc k = true :=
    ⟨k, hk, by simpa [eligible] using hlt⟩
  have hel2 : ∃ k ∈ GoMap.keys ipMap2, eligible env2 lc k = true :=
    ⟨k, hkeys.mem_iff.mp hk, by rw [helig]; simpa [eligible] using hlt⟩
  obtain ⟨hp1, hs1⟩ := h14 hel1
  obtain ⟨hp2, hs2⟩ := h24 hel2
  rw [helig] at hp2
  have hs2b : (getSortedHostsByLoad env2 lc ipMap2).1.1.Pairwise
      (fun a b => observedCount env1 lc a ≤ observedCount env1 lc b) := by
    refine List.Pairwise.imp ?_ hs2
    intro a b hab
    rw [hobs a, hobs b] at hab
    exact hab
  have hp12 : (getSortedHostsByLoad env1 lc ipMap1).1.1.Perm
      (getSortedHostsByLoad env2 lc ipMap2).1.1 :=
    hp1.trans ((hkeys.filter _).trans hp2.symm)
  have hmem1 : ∀ a ∈ (getSortedHostsByLoad env1 lc ipMap1).1.1,
      a ∈ GoMap.keys ipMap1 ∧ observedCount env1 lc a < lc.LoadThreshold := by
    intro a ha
    have := List.mem_filter.mp (hp1.mem_iff.mp ha)
    exact ⟨this.1, by simpa [eligible] using this.2⟩
  have hd : ∀ a b,
      (a ∈ GoMap.keys ipMap1 ∧ observedCount env1 lc a < lc.LoadThreshold) →
      (b ∈ GoMap.keys ipMap1 ∧ observedCount env1 lc b < lc.LoadThreshold) →
      observedCount env1 lc a = observedCount env1 lc b → a = b :=
    fun a b ha hb => hdist a ha.1 b hb.1 ha.2 hb.2
  have hn1 : (getSortedHostsByLoad env1 lc ipMap1).1.1.Nodup :=
    hp1.nodup_iff.mpr (hnd.filter _)
  have hst1 := strictly_ascending (observedCount env1 lc) _ _ hn1 hmem1 hd hs1
  have hst2 := strictly_ascending (observedCount env1 lc) _ _ (hp12.nodup_iff.mp hn1)
    (fun a ha => hmem1 a (hp12.mem_iff.mpr ha)) hd hs2b
  haveI : IsAntisymm String (fun a b => observedCount env1 lc a < observedCount env1 lc b) :=
    ⟨fun a b h1 h2 => absurd (lt_trans h1 h2) (lt_irrefl _)⟩
  have hlist := List.eq_of_perm_of_sorted hp12 hst1 hst2
  exact Prod.ext hlist (e1.trans e2.symm)

/-- C16, instance: threshold 10, the candidates 10.0.0.1 (count 3), 10.0.0.2 (count
15), 10.0.0.3 (no entry), and two map iteration orders. -/
theorem C16_determined_witness :
    exEnv.Valid ∧ exEnvRev.Valid ∧
    exEnv.HGet = exEnvRev.HGet ∧ exEnv.Unmarshal = exEnvRev.Unmarshal ∧
    (GoMap.keys (extract exScenario.Answer [] []).1).Nodup ∧
    (∀ k ∈ GoMap.keys (extract exScenario.Answer [] []).1, ¬ lookupFails exEnv exLc k) ∧
    (∃ k ∈ GoMap.keys (extract exScenario.Answer [] []).1,
      observedCount exEnv exLc k < exLc.LoadThreshold) ∧
    (∀ a ∈ GoMap.keys (extract exScenario.Answer [] []).1,
      ∀ b ∈ GoMap.keys (extract exScenario.Answer [] []).1,
      observedCount exEnv exLc a < exLc.LoadThreshold →
      observedCount exEnv exLc b < exLc.LoadThreshold →
      observedCount exEnv exLc a = observedCount exEnv exLc b → a = b) ∧
    (getSortedHostsByLoad exEnv exLc (extract exScenario.Answer [] []).1).1
      = (getSortedHostsByLoad exEnvRev exLc (extract exScenario.Answer [] []).1).1 :=
  ⟨exEnv_valid, exEnvRev_valid, rfl, rfl, by decide, exScenario_keys_ok,
    ⟨"10.0.0.1", by decide, by decide⟩, by decide,
    C16_determined exEnv exEnvRev exLc (extract exScenario.Answer [] []).1
      (extract exScenario.Answer [] []).1 exEnv_valid exEnvRev_valid rfl rfl (by decide)
      (List.Perm.refl _) exScenario_keys_ok ⟨"10.0.0.1", by decide, by decide⟩ (by decide)⟩

/-! ## C17: the configuration directive -/

/-- The loop of `parse` succeeds when every occurrence has zero or three arguments,
and returns the argument error as soon as one has another number of arguments. -/
theorem parseLoop_spec (Atoi : String → Int × Option Error) (c : Controller)
    (ls : List (List String)) (funcs : lcFuncs) :
    ((∀ args ∈ ls, args.length = 0 ∨ args.length = 3) →
      ∃ g, parseLoop Atoi c ls funcs = (some g, none)) ∧
    ((∃ args ∈ ls, ¬ (args.length = 0 ∨ args.length = 3)) →
      parseLoop Atoi c ls funcs = (none, some c.ArgErr)) := by
  induction ls generalizing funcs with
  | nil =>
    refine ⟨fun _ => ⟨funcs, rfl⟩, ?_⟩
    rintro ⟨args, hargs, _⟩
    simp at hargs
  | cons args rest ih =>
    match args with
    | [] =>
      simp only [parseLoop]
      refine ⟨fun h => (ih funcs).1 (fun a ha => h a (List.mem_cons_of_mem _ ha)), ?_⟩
      rintro ⟨a, ha, hbad⟩
      rcases List.mem_cons.mp ha with h | h
      · subst h; simp at hbad
      · exact (ih funcs).2 ⟨a, h, hbad⟩
    | [a0, a1, a2] =>
      simp only [parseLoop]
      refine ⟨fun h => (ih _).1 (fun a ha => h a (List.mem_cons_of_mem _ ha)), ?_⟩
      rintro ⟨a, ha, hbad⟩
      rcases List.mem_cons.mp ha with h | h
      · subst h; simp at hbad
      · exact (ih _).2 ⟨a, h, hbad⟩
    | [a0] =>
      refine ⟨fun h => ?_, fun _ => by simp [parseLoop]⟩
      have := h [a0] (List.mem_cons_self _ _)
      simp at this
    | [a0, a1] =>
      refine ⟨fun h => ?_, fun _ => by simp [parseLoop]⟩
      have := h [a0, a1] (List.mem_cons_self _ _)
      simp at this
    | a0 :: a1 :: a2 :: a3 :: more =>
      refine ⟨fun h => ?_, fun _ => by simp [parseLoop]⟩
      have := h (a0 :: a1 :: a2 :: a3 :: more) (List.mem_cons_self _ _)
      simp at this

theorem errSyntax_ne_errRange : errSyntax ≠ errRange := by decide

/-- The value `strconvAtoi` returns along with an error. -/
theorem strconvAtoi_error_value (s : String) :
    ((strconvAtoi s).2 = some errSyntax → (strconvAtoi s).1 = 0) ∧
    ((strconvAtoi s).2 = some errRange →
      (strconvAtoi s).1 = 9223372036854775807 ∨ (strconvAtoi s).1 = -9223372036854775808) := by
  unfold strconvAtoi
  split
  · exact ⟨fun _ => rfl, fun h => absurd (Option.some.inj h) errSyntax_ne_errRange⟩
  · dsimp only
    have hne := errSyntax_ne_errRange
    have hne2 : ¬ errRange = errSyntax := fun e => hne e.symm
    split_ifs <;> simp_all

/-- C17 (as stated, refuted): the third argument `9223372036854775808` is not a valid
`int` (`strconv.Atoi` returns a range error), `parse` returns no error, and the load
threshold is 9223372036854775807, not 0. -/
theorem C17_counterexample :
    (strconvAtoi "9223372036854775808").2 = some errRange ∧
    ∃ f, parse strconvAtoi
        (exController ["redis://127.0.0.1:6379", "conn", "9223372036854775808"])
        = (some f, none) ∧
      f.loadThreshold = 9223372036854775807 ∧ f.loadThreshold ≠ 0 :=
  ⟨by decide, _, rfl, by decide, by decide⟩

/-- C17 (amended): `parse` returns without error if and only if every occurrence of
the directive has exactly zero or exactly three arguments; with any other count it
returns the argument error and no result. For a single three-argument directive it
never fails, takes the store address and the key verbatim, and discards the error of
`strconv.Atoi`, keeping the value returned with it: the load threshold is 0 when the
third argument has a syntax error, and the largest or the smallest `int` when it is a
numeral out of the range of `int`. -/
theorem C17_parse (Atoi : String → Int × Option Error) (c : Controller) :
    ((parse Atoi c).2 = none ↔ ∀ args ∈ c.lines, args.length = 0 ∨ args.length = 3) ∧
    ((parse Atoi c).2 ≠ none → parse Atoi c = (none, some c.ArgErr)) ∧
    ((parse Atoi c).2 = none → ∃ f, parse Atoi c = (some f, none)) ∧
    (∀ a0 a1 a2, c.lines = [[a0, a1, a2]] →
      ∃ f, parse Atoi c = (some f, none) ∧ f.redisAddr = a0 ∧ f.redisKey = a1 ∧
        f.loadThreshold = (Atoi a2).1) ∧
    (∀ a0 a1 a2, c.lines = [[a0, a1, a2]] →
      ∃ f, parse strconvAtoi c = (some f, none) ∧
        ((strconvAtoi a2).2 = some errSyntax → f.loadThreshold = 0) ∧
        ((strconvAtoi a2).2 = some errRange →
          f.loadThreshold = 9223372036854775807 ∨
          f.loadThreshold = -9223372036854775808)) := by
  have hspec := parseLoop_spec Atoi c c.lines
    { redisAddr := "", redisKey := "", loadThreshold := 0,
      onStartUpFunc := none, onShutdownFunc := none }
  have hiff : (parse Atoi c).2 = none ↔
      ∀ args ∈ c.lines, args.length = 0 ∨ args.length = 3 := by
    constructor
    · intro h
      by_contra hc
      have hbad : ∃ args ∈ c.lines, ¬ (args.length = 0 ∨ args.length = 3) := by
        by_contra hn
        apply hc
        intro args hargs
        by_contra hb
        exact hn ⟨args, hargs, hb⟩
      have := hspec.2 hbad
      unfold parse at h
      rw [this] at h
      cases h
    · intro h
      obtain ⟨g, hg⟩ := hspec.1 h
      unfold parse
      rw [hg]
  refine ⟨hiff, ?_, ?_, ?_, ?_⟩
  · intro hne
    have hbad : ∃ args ∈ c.lines, ¬ (args.length = 0 ∨ args.length = 3) := by
      by_contra hn
      apply hne
      apply hiff.mpr
      intro args hargs
      by_contra hb
      exact hn ⟨args, hargs, hb⟩
    exact hspec.2 hbad
  · intro h
    exact hspec.1 (hiff.mp h)
  · intro a0 a1 a2 hl
    unfold parse
    rw [hl]
    exact ⟨_, rfl, rfl, rfl, rfl⟩
  · intro a0 a1 a2 hl
    unfold parse
    rw [hl]
    exact ⟨_, rfl, (strconvAtoi_error_value a2).1, (strconvAtoi_error_value a2).2⟩

/-- C17, instance: the directive `loadaware redis://127.0.0.1:6379 conn abc`. -/
theorem C17_parse_witness :
    (strconvAtoi "abc").2 = some errSyntax ∧
    ∃ f, parse strconvAtoi (exController ["redis://127.0.0.1:6379", "conn", "abc"])
        = (some f, none) ∧
      f.redisAddr = "redis://127.0.0.1:6379" ∧ f.redisKey = "conn" ∧ f.loadThreshold = 0 := by
  obtain ⟨f, hf, h1, h2, _⟩ := (C17_parse strconvAtoi
    (exController ["redis://127.0.0.1:6379", "conn", "abc"])).2.2.2.1
      "redis://127.0.0.1:6379" "conn" "abc" rfl
  obtain ⟨g, hg, h3, _⟩ := (C17_parse strconvAtoi
    (exController ["redis://127.0.0.1:6379", "conn", "abc"])).2.2.2.2
      "redis://127.0.0.1:6379" "conn" "abc" rfl
  have hfg : f = g := by
    rw [hf] at hg
    exact Option.some.inj (Prod.mk.inj hg).1
  subst hfg
  exact ⟨by decide, f, hf, h1, h2, h3 (by decide)⟩

end loadaware
